import Mathlib

/-!
Verification of the Supabase migration CLI's migration engine
(`supabase-migration-cli.py`), shallowly embedded in Lean 4.

The embedding mirrors the source file:
* `get_tables` — `SupabaseMigrator.get_tables`: the `information_schema`
  query with its two `NOT LIKE` filters and `ORDER BY table_name`;
* `get_table_info` — `SupabaseMigrator.get_table_info`;
* `table_exists` — `SupabaseMigrator.table_exists` against the destination;
* `migrate_table` — `SupabaseMigrator.migrate_table`: the fetchmany loop,
  one `INSERT ... ON CONFLICT DO NOTHING` + commit per batch, rollback and
  re-raise on a failing batch;
* `migrate` — `SupabaseMigrator.migrate` (the non-interactive path, where
  `selected_tables` is supplied): validation of the selection, the
  per-table info pass, the confirmation gate, the per-table loop with its
  `try/except` around `migrate_table` only, and the final summary;
* `close` / `main` — the connection-release structure of
  `SupabaseMigrator.close` and `main`'s `try/except/finally`.

External effects that the Python code leaves to the databases (whether a
given batch `INSERT` raises, whether an `information_schema` query raises)
are supplied as explicit oracles, so that every behaviour of the script is
a point of the model.
-/

namespace SupabaseCli

/-- A row, as fetched by `cursor.fetchmany`: a tuple of column values. -/
abbrev Row := List String

/-- One entry of `information_schema.columns` for a table:
`column_name`, `data_type`. -/
structure SrcColumn where
  name : String
  dtype : String
  deriving DecidableEq, Repr

/-- One relation of the source database, carrying the catalog attributes
the script queries (`table_schema`, `table_type`) and its content. -/
structure SrcTable where
  name : String
  schema : String
  tableType : String
  columns : List SrcColumn
  rows : List Row
  deriving DecidableEq, Repr

/-- The source database: its catalog of relations. -/
structure SourceDB where
  tables : List SrcTable
  deriving DecidableEq, Repr

/-- The destination database: the names of its (public-schema) tables and
the committed rows of each table.  Inserting rows never creates a table:
`tables` is only ever read. -/
structure DestDB where
  tables : List String
  rows : String → List Row

/-- SQL `LIKE` matching over explicit character lists: `%` matches any
sequence, `_` matches exactly one character, anything else matches itself
(case-sensitively).  This is the semantics of the `NOT LIKE 'pg_%'` and
`NOT LIKE '_prisma%'` filters in `get_tables`. -/
def likeMatch : List Char → List Char → Bool
  | [], s => s.isEmpty
  | '%' :: p, s => (s.tails).any (fun t => likeMatch p t)
  | '_' :: p, s =>
    match s with
    | [] => false
    | _ :: s' => likeMatch p s'
  | c :: p, s =>
    match s with
    | [] => false
    | d :: s' => c == d && likeMatch p s'

/-- SQL `LIKE` matching on strings. -/
def likeStr (pat s : String) : Bool := likeMatch pat.data s.data

/-- Executable lexicographic comparison of character lists (shown below to
agree with the library order on `String`). -/
def charsLe : List Char → List Char → Bool
  | [], _ => true
  | _ :: _, [] => false
  | x :: xs, y :: ys => if x = y then charsLe xs ys else decide (x < y)

/-- Executable lexicographic `≤` on strings, the `ORDER BY table_name`
collation of the model. -/
def strLe (a b : String) : Bool := charsLe a.data b.data

/-- Model of `SupabaseMigrator.get_tables`: names of the source's relations with
`table_schema = 'public'`, `table_type = 'BASE TABLE'`, not `LIKE 'pg_%'`
and not `LIKE '_prisma%'`, ordered by name (`ORDER BY table_name`). -/
def get_tables (src : SourceDB) : List String :=
  List.insertionSort (fun a b : String => strLe a b = true)
    ((src.tables.filter (fun t =>
        t.schema == "public" && t.tableType == "BASE TABLE" &&
        !(likeStr "pg_%" t.name) && !(likeStr "_prisma%" t.name))).map
      (fun t => t.name))

/-- Lookup of a relation of the source by name, as the script's unqualified
queries (`SELECT COUNT(*) FROM "t"`, `SELECT * FROM "t"`) resolve it:
within the public schema. -/
def findTable (src : SourceDB) (t : String) : Option SrcTable :=
  src.tables.find? (fun x => x.name == t && x.schema == "public")

/-- The rows `SELECT * FROM "t"` streams for a source table. -/
def srcRowsOf (src : SourceDB) (t : String) : List Row :=
  ((findTable src t).map SrcTable.rows).getD []

/-- The column names `cursor.description` reports for `SELECT * FROM "t"`:
the source table's column names, in ordinal order. -/
def srcColNames (src : SourceDB) (t : String) : List String :=
  ((findTable src t).map (fun x => x.columns.map SrcColumn.name)).getD []

/-- The dictionary `get_table_info` returns: `name`, `row_count`
(`SELECT COUNT(*)`), `columns`. -/
structure TableInfo where
  name : String
  row_count : Nat
  columns : List SrcColumn
  deriving DecidableEq, Repr

/-- Model of `SupabaseMigrator.get_table_info`. -/
def get_table_info (src : SourceDB) (t : String) : TableInfo :=
  ⟨t, (srcRowsOf src t).length, ((findTable src t).map SrcTable.columns).getD []⟩

/-- Model of `SupabaseMigrator.table_exists`: does the destination's public schema
contain a table of this name? -/
def table_exists (db : DestDB) (t : String) : Bool :=
  db.tables.contains t

/-- The successive results of `source_cursor.fetchmany(b)`: the row list cut
into slices of `b` (a smaller final slice allowed), via fuel recursion on
the length of the remaining list.  `fetchmany 0` returns no rows, so a zero
batch size produces no batches, exactly as the `if not rows: break` exit
behaves in the script. -/
def chunksF : Nat → Nat → List Row → List (List Row)
  | _, _, [] => []
  | _, 0, _ => []
  | 0, _, _ => []
  | fuel + 1, b, r :: rest => ((r :: rest).take b) :: chunksF fuel b ((r :: rest).drop b)

/-- The batches the fetch loop of `migrate_table` issues for a source of
rows `rs` at batch size `b`. -/
def chunks (b : Nat) (rs : List Row) : List (List Row) :=
  chunksF rs.length b rs

/-- Observable destination-side actions of a run, in order: the per-table
info queries of the pre-copy listing, the existence probes of
skip-existing mode, and the batch trio of `migrate_table`
(`executemany` / `commit` / progress print, or rollback). -/
inductive Ev where
  | info (ti : TableInfo)
  | existsCheck (table : String)
  | insert (table : String) (cols : List String) (rows : List Row)
  | commit
  | rollback
  | progress (n : Nat)
  deriving DecidableEq, Repr

/-- One row applied under `ON CONFLICT DO NOTHING`: a row that conflicts
with one already present is silently dropped. -/
def applyRow (cur : List Row) (r : Row) : List Row :=
  if r ∈ cur then cur else cur ++ [r]

/-- One committed batch applied to a destination table's rows,
`executemany` running the single-row insert once per row. -/
def applyRows (cur : List Row) (batch : List Row) : List Row :=
  batch.foldl applyRow cur

/-- A committed batch applied to the destination: only the rows of
`d` change; the table catalog is untouched. -/
def applyBatch (db : DestDB) (d : String) (batch : List Row) : DestDB :=
  { db with rows := fun t => if t = d then applyRows (db.rows d) batch else db.rows t }

/-- Result of one `migrate_table` call: its destination-side events, the
destination state it leaves, and either the returned `rows_migrated`
count or the exception it re-raises. -/
structure MTResult where
  events : List Ev
  dest : DestDB
  result : Except String Nat

/-- The `while True` loop of `migrate_table` over the already-cut batches:
batch `i` either fails (`fails i`), in which case the transaction is rolled
back and the exception re-raised, or is committed and counted. -/
def runBatches (d : String) (cols : List String) (fails : Nat → Bool) :
    List (List Row) → Nat → Nat → DestDB → MTResult
  | [], _, acc, db => ⟨[], db, .ok acc⟩
  | c :: cs, i, acc, db =>
    if fails i then
      ⟨[Ev.insert d cols c, Ev.rollback], db, .error "BatchInsertError"⟩
    else
      let r := runBatches d cols fails cs (i + 1) (acc + c.length) (applyBatch db d c)
      ⟨Ev.insert d cols c :: Ev.commit :: Ev.progress (acc + c.length) :: r.events,
       r.dest, r.result⟩

/-- Model of `SupabaseMigrator.migrate_table`, for a source cursor that streams
`srcRows` with column description `cols`, inserting into `dest_table`. -/
def migrate_table (srcRows : List Row) (cols : List String) (dest_table : String)
    (batch_size : Nat) (fails : Nat → Bool) (db : DestDB) : MTResult :=
  runBatches dest_table cols fails (chunks batch_size srcRows) 0 0 db

/-- The per-table outcome the run prints while looping: the skip message,
the completion message with its row count, or the failure message of the
`except` handler. -/
inductive TOutcome where
  | skipped (table : String)
  | success (table : String) (rows : Nat)
  | failure (table : String)
  deriving DecidableEq, Repr

/-- The table a printed outcome concerns. -/
def TOutcome.table : TOutcome → String
  | .skipped t => t
  | .success t _ => t
  | .failure t => t

/-- Rows contributed by an outcome to `total_rows`: only a success
contributes. -/
def TOutcome.rowsOf : TOutcome → Nat
  | .success _ n => n
  | _ => 0

/-- The `total_rows` figure as accumulated by the loop: the sum over success
outcomes (skips and failures contribute zero). -/
def sumSuccessRows (os : List TOutcome) : Nat :=
  (os.map TOutcome.rowsOf).sum

/-- The code's `dest_table = table_mappings.get(source_table, source_table) if
table_mappings else source_table`. -/
def mapDest (maps : List (String × String)) (t : String) : String :=
  if maps.isEmpty then t else ((maps.lookup t).getD t)

/-- Accumulator of the per-table loop of `migrate`: outcomes printed so
far, destination-side events so far, current destination state, and the
running `total_rows`. -/
structure LoopState where
  outcomes : List TOutcome
  events : List Ev
  dest : DestDB
  total : Nat

/-- The `for source_table in selected_tables` loop of `migrate`.  Per
entry: resolve the destination name; in skip-existing mode probe the
destination (an error here — `existsFails` — is *not* inside the `try`, so
it aborts the loop: second component `true`); a table already present is
recorded as skipped; otherwise `migrate_table` runs under the `try`, a
success adds to `total_rows`, an exception is caught and recorded as a
failure, and the loop continues either way. -/
def runTables (src : SourceDB) (maps : List (String × String)) (skip : Bool) (b : Nat)
    (existsFails : String → Bool) (batchFails : String → Nat → Bool) :
    List String → LoopState → LoopState × Bool
  | [], st => (st, false)
  | t :: rest, st =>
    let d := mapDest maps t
    if skip then
      if existsFails d then
        ({ st with events := st.events ++ [Ev.existsCheck d] }, true)
      else if table_exists st.dest d then
        runTables src maps skip b existsFails batchFails rest
          { st with
            outcomes := st.outcomes ++ [TOutcome.skipped t],
            events := st.events ++ [Ev.existsCheck d] }
      else
        let st1 : LoopState := { st with events := st.events ++ [Ev.existsCheck d] }
        let mt := migrate_table (srcRowsOf src t) (srcColNames src t) d b (batchFails t) st1.dest
        match mt.result with
        | .ok n =>
          runTables src maps skip b existsFails batchFails rest
            ⟨st1.outcomes ++ [TOutcome.success t n], st1.events ++ mt.events, mt.dest,
             st1.total + n⟩
        | .error _ =>
          runTables src maps skip b existsFails batchFails rest
            ⟨st1.outcomes ++ [TOutcome.failure t], st1.events ++ mt.events, mt.dest, st1.total⟩
    else
      let mt := migrate_table (srcRowsOf src t) (srcColNames src t) d b (batchFails t) st.dest
      match mt.result with
      | .ok n =>
        runTables src maps skip b existsFails batchFails rest
          ⟨st.outcomes ++ [TOutcome.success t n], st.events ++ mt.events, mt.dest, st.total + n⟩
      | .error _ =>
        runTables src maps skip b existsFails batchFails rest
          ⟨st.outcomes ++ [TOutcome.failure t], st.events ++ mt.events, mt.dest, st.total⟩

/-- The pre-copy information pass of `migrate` (`get_table_info` per
selected table, outside any `try`): returns the info queries issued and,
if one of them raised (`infoFails`), the table it raised on — in which
case the run aborts there. -/
def infoPhase (src : SourceDB) (infoFails : String → Bool) :
    List String → List Ev × Option String
  | [] => ([], none)
  | t :: rest =>
    if infoFails t then ([], some t)
    else
      let r := infoPhase src infoFails rest
      (Ev.info (get_table_info src t) :: r.1, r.2)

/-- How a `migrate` call ends: `sys.exit(1)` on unknown requested tables
(with the printed missing-name list), `sys.exit(1)` on an empty selection,
an uncaught exception from the info pass or from an existence probe,
the user declining the confirmation prompt, or the normal summary print
(`Tables: <count>`, `Rows: <total>`). -/
inductive RunExit where
  | validationError (missing : List String)
  | noTablesError
  | crashedInfo (table : String)
  | crashedExists
  | cancelled
  | completed (tableCount : Nat) (totalRows : Nat)
  deriving DecidableEq, Repr

/-- Result of one `migrate` call. -/
structure MigrateResult where
  outcomes : List TOutcome
  events : List Ev
  dest : DestDB
  exit : RunExit

/-- Model of `SupabaseMigrator.migrate` on the non-interactive path
(`selected_tables` supplied).  Environmental failure points of the script
are oracles: `infoFails t` — `get_table_info(t)` raises; `existsFails d` —
`table_exists(d)` raises; `batchFails t i` — batch `i` of table `t`'s copy
raises; `confirm` — the user answers yes at the prompt. -/
def migrate (src : SourceDB) (dest0 : DestDB) (infoFails : String → Bool)
    (existsFails : String → Bool) (batchFails : String → Nat → Bool) (confirm : Bool)
    (selected : List String) (maps : List (String × String)) (skip : Bool) (b : Nat) :
    MigrateResult :=
  let all := get_tables src
  let missing := selected.filter (fun t => !(all.contains t))
  if !missing.isEmpty then
    ⟨[], [], dest0, RunExit.validationError missing⟩
  else if selected.isEmpty then
    ⟨[], [], dest0, RunExit.noTablesError⟩
  else
    match infoPhase src infoFails selected with
    | (evs, some t) => ⟨[], evs, dest0, RunExit.crashedInfo t⟩
    | (evs, none) =>
      if !confirm then
        ⟨[], evs, dest0, RunExit.cancelled⟩
      else
        match runTables src maps skip b existsFails batchFails selected ⟨[], evs, dest0, 0⟩ with
        | (st, true) => ⟨st.outcomes, st.events, st.dest, RunExit.crashedExists⟩
        | (st, false) =>
          ⟨st.outcomes, st.events, st.dest, RunExit.completed selected.length st.total⟩

/-- State for `SupabaseMigrator.close` and `main`'s shutdown path.  A migrator holds
two optional connections (`source_conn`, `dest_conn`, both `None` until
`connect` assigns them). -/
structure Migrator where
  source_conn : Option Nat
  dest_conn : Option Nat
  deriving DecidableEq, Repr

/-- A connection release performed by `close`. -/
inductive CloseOp where
  | closeSource (id : Nat)
  | closeDest (id : Nat)
  deriving DecidableEq, Repr

/-- Model of `SupabaseMigrator.close`: each connection is closed only if it was
assigned (`if self.source_conn: ...`); a still-`None` field is simply
passed over.  The function is total: it never raises. -/
def close (m : Migrator) : List CloseOp :=
  (match m.source_conn with
   | some c => [CloseOp.closeSource c]
   | none => []) ++
  (match m.dest_conn with
   | some c => [CloseOp.closeDest c]
   | none => [])

/-- Model of `SupabaseMigrator.connect`: the source connection is assigned first;
a source failure exits with both fields still `None`, a destination
failure exits with only the source assigned.  The Bool says whether
`sys.exit(1)` was raised. -/
def connect (srcOk destOk : Bool) (sid did : Nat) (m : Migrator) : Migrator × Bool :=
  if !srcOk then (m, true)
  else
    let m1 : Migrator := { m with source_conn := some sid }
    if !destOk then (m1, true)
    else ({ m1 with dest_conn := some did }, false)

/-- The ways the `try` body of `main` can end after a successful
`connect`: `sys.exit(1)` from `migrate`'s validation or empty-selection
checks (`SystemExit` is not an `Exception`, so neither handler catches
it), `KeyboardInterrupt`, any other unhandled exception, a cancelled
confirmation, or normal completion.  Whatever the path, `finally` runs. -/
inductive ExitPath where
  | validationFail
  | noTablesFail
  | interrupted
  | unhandledError
  | cancelled
  | completedRun
  deriving DecidableEq, Repr

/-- Model of `main`'s connection lifecycle: build the migrator with both fields
`None`, run `connect` (which may `sys.exit`), run the body along some
path, and — in the `finally` — `close` whatever connections exist at that
point.  The returned list is the releases performed. -/
def mainCloses (srcOk destOk : Bool) (sid did : Nat) (_p : ExitPath) : List CloseOp :=
  let m0 : Migrator := ⟨none, none⟩
  let r := connect srcOk destOk sid did m0
  close r.1

/-- The event trio emitted for each committed batch, with the running
cumulative row count of the progress prints. -/
def committedEvents (d : String) (cols : List String) : Nat → List (List Row) → List Ev
  | _, [] => []
  | acc, c :: cs =>
    Ev.insert d cols c :: Ev.commit :: Ev.progress (acc + c.length) ::
      committedEvents d cols (acc + c.length) cs

/-- A sequence of committed batches applied to the destination. -/
def applyBatches (d : String) (db : DestDB) (cs : List (List Row)) : DestDB :=
  cs.foldl (fun a c => applyBatch a d c) db

/-- Did some batch among the first `n` raise?  (`migrate_table` only ever
reaches batch `i` after batches `0..i-1` committed, so this decides
whether a copy of `n` batches raises.) -/
def copyRaises (fails : Nat → Bool) (n : Nat) : Bool :=
  (List.range n).any fails

/-- Is an event an `executemany` insert? -/
def isInsertEv : Ev → Bool
  | Ev.insert _ _ _ => true
  | _ => false

/-- Is an event a transaction commit? -/
def isCommitEv : Ev → Bool
  | Ev.commit => true
  | _ => false

/-- A 5-row source table used as a concrete instance. -/
def rowsW : List Row := [["r1"], ["r2"], ["r3"], ["r4"], ["r5"]]

/-- A concrete destination whose table `t` already holds row `r1`. -/
def dbW : DestDB := ⟨["t"], fun _ => [["r1"]]⟩

/-- The oracle of a copy in which no batch raises. -/
def noFails : Nat → Bool := fun _ => false

/-- The oracle of a copy in which batch 2 (and every later batch) raises. -/
def failsFrom2 : Nat → Bool := fun i => decide (2 ≤ i)

/-- The outcome the loop records for one plan entry, computed from data
that is invariant across the run: the skip test consults the destination's
(never-changing) table list, and a copy fails exactly when some batch
within range raises. -/
def tableOutcome (src : SourceDB) (destTables : List String)
    (maps : List (String × String)) (skip : Bool) (b : Nat)
    (batchFails : String → Nat → Bool) (t : String) : TOutcome :=
  if skip && destTables.contains (mapDest maps t) then TOutcome.skipped t
  else if copyRaises (batchFails t) (chunks b (srcRowsOf src t)).length then
    TOutcome.failure t
  else TOutcome.success t (srcRowsOf src t).length

/-- A three-table source (`A`, `B`, `C`, one row each). -/
def srcABC : SourceDB := ⟨[
  ⟨"A", "public", "BASE TABLE", [⟨"id", "text"⟩], [["a1"]]⟩,
  ⟨"B", "public", "BASE TABLE", [⟨"id", "text"⟩], [["b1"]]⟩,
  ⟨"C", "public", "BASE TABLE", [⟨"id", "text"⟩], [["c1"]]⟩]⟩

/-- An empty destination. -/
def destEmpty : DestDB := ⟨[], fun _ => []⟩

/-- An existence-check oracle that raises exactly on destination name `B`. -/
def eFailB : String → Bool := fun d => d == "B"

/-- A batch oracle under which every batch of table `B`'s copy raises and
no other table's copy raises. -/
def bFailB : String → Nat → Bool := fun t _ => t == "B"

/-- An oracle under which nothing raises. -/
def neverFails : String → Bool := fun _ => false

/-- A batch oracle under which no batch of any table raises. -/
def bNever : String → Nat → Bool := fun _ _ => false

/-- A batch oracle under which every batch of every table raises. -/
def bAlways : String → Nat → Bool := fun _ _ => true

/-- A source holding tables `orders` and `users`, one row each. -/
def srcOrd : SourceDB := ⟨[
  ⟨"orders", "public", "BASE TABLE", [⟨"id", "text"⟩], [["o1"]]⟩,
  ⟨"users", "public", "BASE TABLE", [⟨"id", "text"⟩], [["u1"]]⟩]⟩

/-- A destination that already contains table `orders`. -/
def destOrd : DestDB := ⟨["orders"], fun _ => []⟩

/-- A source holding `old_users` with columns `id`, `email` and one row;
used with the mapping `old_users → users_v2`. -/
def srcOld : SourceDB := ⟨[
  ⟨"old_users", "public", "BASE TABLE",
    [⟨"id", "text"⟩, ⟨"email", "text"⟩], [["1", "a"]]⟩]⟩

/-- A source holding exactly tables `users` and `posts`. -/
def srcUP : SourceDB := ⟨[
  ⟨"users", "public", "BASE TABLE", [⟨"id", "text"⟩], [["u1"]]⟩,
  ⟨"posts", "public", "BASE TABLE", [⟨"id", "text"⟩], [["p1"]]⟩]⟩

/-- A source whose only table is named `pgatable` — no literal `pg_`
prefix, but matched by the `LIKE 'pg_%'` pattern since `_` is a
single-character wildcard. -/
def srcPG : SourceDB :=
  ⟨[⟨"pgatable", "public", "BASE TABLE", [⟨"id", "text"⟩], []⟩]⟩

theorem charsLe_iff (xs ys : List Char) :
    charsLe xs ys = true ↔ ¬ List.Lex (· < ·) ys xs := by
  induction xs generalizing ys with
  | nil =>
    constructor
    · intro _ h
      cases h
    · intro _
      rfl
  | cons x xs ih =>
    cases ys with
    | nil =>
      constructor
      · intro h
        exact absurd h (by simp [charsLe])
      · intro h
        exact absurd List.Lex.nil h
    | cons y ys =>
      by_cases hxy : x = y
      · subst hxy
        have hstep : charsLe (x :: xs) (x :: ys) = charsLe xs ys := by
          simp [charsLe]
        rw [hstep, ih ys]
        constructor
        · intro h hl
          cases hl with
          | cons h2 => exact h h2
          | rel h2 => exact absurd h2 (lt_irrefl x)
        · intro h hl
          exact h (List.Lex.cons hl)
      · have hstep : charsLe (x :: xs) (y :: ys) = decide (x < y) := by
          simp [charsLe, hxy]
        rw [hstep, decide_eq_true_eq]
        constructor
        · intro h hl
          cases hl with
          | cons h2 => exact hxy rfl
          | rel h2 => exact absurd h (asymm h2)
        · intro h
          rcases lt_trichotomy x y with h1 | h1 | h1
          · exact h1
          · exact absurd h1 hxy
          · exact absurd (List.Lex.rel h1) h

theorem strLe_iff_le (a b : String) : strLe a b = true ↔ a ≤ b := by
  constructor
  · intro h
    rw [String.le_iff_toList_le, ← not_lt]
    intro hlt
    exact (charsLe_iff a.data b.data).mp h hlt
  · intro h
    rw [String.le_iff_toList_le, ← not_lt] at h
    exact (charsLe_iff a.data b.data).mpr (fun hl => h hl)

theorem chunksF_nil (f b : Nat) : chunksF f b [] = [] := by
  cases f <;> cases b <;> rfl

theorem chunksF_zero (f : Nat) (rs : List Row) : chunksF f 0 rs = [] := by
  cases f <;> cases rs <;> rfl

theorem chunksF_succ (f b : Nat) (r : Row) (rest : List Row) :
    chunksF (f + 1) (b + 1) (r :: rest) =
      ((r :: rest).take (b + 1)) :: chunksF f (b + 1) ((r :: rest).drop (b + 1)) := rfl

theorem chunksF_congr (f1 : Nat) : ∀ (f2 b : Nat) (rs : List Row),
    rs.length ≤ f1 → rs.length ≤ f2 → chunksF f1 b rs = chunksF f2 b rs := by
  induction f1 with
  | zero =>
    intro f2 b rs h1 _
    have : rs = [] := List.eq_nil_of_length_eq_zero (Nat.le_zero.mp h1)
    subst this
    rw [chunksF_nil, chunksF_nil]
  | succ g ih =>
    intro f2 b rs h1 h2
    cases rs with
    | nil => rw [chunksF_nil, chunksF_nil]
    | cons r rest =>
      cases b with
      | zero => rw [chunksF_zero, chunksF_zero]
      | succ b' =>
        cases f2 with
        | zero =>
          exact absurd h2 (by simp)
        | succ g2 =>
          rw [chunksF_succ, chunksF_succ]
          have hd : ((r :: rest).drop (b' + 1)).length ≤ g := by
            simp only [List.length_drop, List.length_cons]
            simp only [List.length_cons] at h1
            omega
          have hd2 : ((r :: rest).drop (b' + 1)).length ≤ g2 := by
            simp only [List.length_drop, List.length_cons]
            simp only [List.length_cons] at h2
            omega
          rw [ih g2 (b' + 1) _ hd hd2]

theorem chunks_nil (b : Nat) : chunks b [] = [] := chunksF_nil 0 b

theorem chunks_cons (b : Nat) (rs : List Row) (hb : 0 < b) (hrs : rs ≠ []) :
    chunks b rs = rs.take b :: chunks b (rs.drop b) := by
  obtain ⟨r, rest, rfl⟩ := List.exists_cons_of_ne_nil hrs
  obtain ⟨b', rfl⟩ : ∃ b', b = b' + 1 := ⟨b - 1, by omega⟩
  show chunksF (rest.length + 1) (b' + 1) (r :: rest) = _
  rw [chunksF_succ]
  unfold chunks
  rw [chunksF_congr rest.length ((r :: rest).drop (b' + 1)).length (b' + 1)
    ((r :: rest).drop (b' + 1)) (by simp) (Nat.le_refl _)]

theorem chunks_join (b : Nat) (hb : 0 < b) (rs : List Row) :
    (chunks b rs).flatten = rs := by
  have key : ∀ (n : Nat) (l : List Row), l.length ≤ n → (chunks b l).flatten = l := by
    intro n
    induction n with
    | zero =>
      intro l h
      have : l = [] := List.eq_nil_of_length_eq_zero (Nat.le_zero.mp h)
      subst this
      rw [chunks_nil]
      rfl
    | succ m ih =>
      intro l h
      cases hl : l with
      | nil =>
        rw [chunks_nil]
        rfl
      | cons r rest =>
        subst hl
        rw [chunks_cons b _ hb (by simp)]
        have hlen : ((r :: rest).drop b).length ≤ m := by
          simp only [List.length_drop, List.length_cons] at h ⊢
          omega
        simp only [List.flatten_cons, ih _ hlen, List.take_append_drop]
  exact key rs.length rs (Nat.le_refl _)

theorem chunks_ne_nil (b : Nat) (rs : List Row) :
    ∀ c ∈ chunks b rs, c ≠ [] ∧ c.length ≤ b := by
  have key : ∀ (n : Nat) (l : List Row), l.length ≤ n →
      ∀ c ∈ chunks b l, c ≠ [] ∧ c.length ≤ b := by
    intro n
    induction n with
    | zero =>
      intro l h c hc
      rw [List.eq_nil_of_length_eq_zero (Nat.le_zero.mp h), chunks_nil] at hc
      cases hc
    | succ m ih =>
      intro l h c hc
      cases hl : l with
      | nil =>
        rw [hl, chunks_nil] at hc
        cases hc
      | cons r rest =>
        subst hl
        by_cases hb : 0 < b
        · rw [chunks_cons b _ hb (by simp)] at hc
          cases hc with
          | head =>
            constructor
            · simp [List.take]
              omega
            · simp
          | tail _ hc2 =>
            have hlen : ((r :: rest).drop b).length ≤ m := by
              simp only [List.length_drop, List.length_cons] at h ⊢
              omega
            exact ih _ hlen c hc2
        · have : b = 0 := by omega
          subst this
          rw [show chunks 0 (r :: rest) = [] from chunksF_zero _ _] at hc
          cases hc
  exact key rs.length rs (Nat.le_refl _)

theorem chunks_getElem? (b : Nat) (hb : 0 < b) (rs : List Row) :
    ∀ (i : Nat) (c : List Row), (chunks b rs)[i]? = some c →
      c = (rs.drop (i * b)).take b := by
  have key : ∀ (n : Nat) (l : List Row), l.length ≤ n →
      ∀ (i : Nat) (c : List Row), (chunks b l)[i]? = some c →
        c = (l.drop (i * b)).take b := by
    intro n
    induction n with
    | zero =>
      intro l hlen i c h
      rw [List.eq_nil_of_length_eq_zero (Nat.le_zero.mp hlen), chunks_nil] at h
      simp at h
    | succ m ih =>
      intro l hlen i c h
      cases hl : l with
      | nil =>
        subst hl
        rw [chunks_nil] at h
        simp at h
      | cons r rest =>
        subst hl
        rw [chunks_cons b _ hb (by simp)] at h
        cases i with
        | zero =>
          simp only [List.getElem?_cons_zero, Option.some.injEq] at h
          simp [h.symm]
        | succ i' =>
          rw [List.getElem?_cons_succ] at h
          have hlen2 : ((r :: rest).drop b).length ≤ m := by
            simp only [List.length_drop, List.length_cons] at hlen ⊢
            omega
          rw [ih _ hlen2 i' c h, List.drop_drop]
          congr 2
          ring
  exact key rs.length rs (Nat.le_refl _)

theorem chunks_getElem (b : Nat) (hb : 0 < b) (rs : List Row) (i : Nat)
    (h : i < (chunks b rs).length) :
    (chunks b rs)[i] = (rs.drop (i * b)).take b := by
  apply chunks_getElem? b hb rs i
  exact (List.getElem?_eq_getElem h).symm ▸ rfl

theorem chunks_length (b : Nat) (hb : 0 < b) (rs : List Row) :
    (chunks b rs).length = (rs.length + b - 1) / b := by
  have key : ∀ (n : Nat) (l : List Row), l.length ≤ n →
      (chunks b l).length = (l.length + b - 1) / b := by
    intro n
    induction n with
    | zero =>
      intro l h
      rw [List.eq_nil_of_length_eq_zero (Nat.le_zero.mp h), chunks_nil]
      simp only [List.length_nil]
      exact (Nat.div_eq_of_lt (by omega)).symm
    | succ m ih =>
      intro l h
      cases hl : l with
      | nil =>
        subst hl
        rw [chunks_nil]
        simp only [List.length_nil]
        exact (Nat.div_eq_of_lt (by omega)).symm
      | cons r rest =>
        subst hl
        rw [chunks_cons b _ hb (by simp)]
        have hlen : ((r :: rest).drop b).length ≤ m := by
          simp only [List.length_drop, List.length_cons] at h ⊢
          omega
        rw [List.length_cons, ih _ hlen]
        simp only [List.length_drop, List.length_cons]
        rcases Nat.lt_or_ge (rest.length + 1) b with hc | hc
        · have h1 : rest.length + 1 - b = 0 := by omega
          have e1 : rest.length + 1 + b - 1 = rest.length + b := by omega
          have e2 : (rest.length + 1 - b + b - 1) / b = 0 := by
            rw [h1]
            exact Nat.div_eq_of_lt (by omega)
          have e3 : (rest.length + 1 + b - 1) / b = 1 := by
            rw [e1, Nat.add_div_right _ hb, Nat.div_eq_of_lt (by omega : rest.length < b)]
          omega
        · have h1 : rest.length + 1 - b + b - 1 = rest.length + 1 - 1 := by omega
          have h2 : rest.length + 1 + b - 1 = (rest.length + 1 - 1) + b := by omega
          rw [h1, h2, Nat.add_div_right _ hb]
  exact key rs.length rs (Nat.le_refl _)

theorem applyBatch_tables (db : DestDB) (d : String) (c : List Row) :
    (applyBatch db d c).tables = db.tables := rfl

theorem applyBatch_rows_self (db : DestDB) (d : String) (c : List Row) :
    (applyBatch db d c).rows d = applyRows (db.rows d) c := by
  simp [applyBatch]

theorem applyBatch_rows_ne (db : DestDB) (d : String) (c : List Row) (t : String)
    (h : t ≠ d) : (applyBatch db d c).rows t = db.rows t := by
  simp [applyBatch, h]

theorem applyBatches_tables (d : String) (cs : List (List Row)) : ∀ (db : DestDB),
    (applyBatches d db cs).tables = db.tables := by
  induction cs with
  | nil => intro db; rfl
  | cons c cs ih =>
    intro db
    show (applyBatches d (applyBatch db d c) cs).tables = db.tables
    rw [ih, applyBatch_tables]

theorem applyBatches_rows_self (d : String) (cs : List (List Row)) : ∀ (db : DestDB),
    (applyBatches d db cs).rows d = cs.foldl applyRows (db.rows d) := by
  induction cs with
  | nil => intro db; rfl
  | cons c cs ih =>
    intro db
    show (applyBatches d (applyBatch db d c) cs).rows d = _
    rw [ih, applyBatch_rows_self]
    rfl

theorem applyBatches_rows_ne (d : String) (cs : List (List Row)) : ∀ (db : DestDB)
    (t : String), t ≠ d → (applyBatches d db cs).rows t = db.rows t := by
  induction cs with
  | nil => intro db t _; rfl
  | cons c cs ih =>
    intro db t ht
    show (applyBatches d (applyBatch db d c) cs).rows t = _
    rw [ih _ t ht, applyBatch_rows_ne _ _ _ _ ht]

theorem runBatches_noFail (d : String) (cols : List String) (fails : Nat → Bool)
    (cs : List (List Row)) : ∀ (i acc : Nat) (db : DestDB),
    (∀ j, j < cs.length → fails (i + j) = false) →
    runBatches d cols fails cs i acc db =
      ⟨committedEvents d cols acc cs, applyBatches d db cs,
       Except.ok (acc + (cs.map List.length).sum)⟩ := by
  induction cs with
  | nil =>
    intro i acc db _
    simp [runBatches, committedEvents, applyBatches]
  | cons c cs ih =>
    intro i acc db h
    have h0 : fails i = false := by
      have := h 0 (by simp)
      simpa using this
    simp only [runBatches, h0, Bool.false_eq_true, if_false]
    rw [ih (i + 1) (acc + c.length) (applyBatch db d c)
      (fun j hj => by
        have := h (j + 1) (by simpa using Nat.succ_lt_succ hj)
        simpa [Nat.add_assoc, Nat.add_comm 1 j] using this)]
    simp only [committedEvents, applyBatches, List.foldl_cons, List.map_cons, List.sum_cons]
    rw [Nat.add_assoc]

theorem runBatches_fail (d : String) (cols : List String) (fails : Nat → Bool)
    (cs : List (List Row)) : ∀ (k i acc : Nat) (db : DestDB) (hk : k < cs.length),
    fails (i + k) = true → (∀ j, j < k → fails (i + j) = false) →
    runBatches d cols fails cs i acc db =
      ⟨committedEvents d cols acc (cs.take k) ++
         [Ev.insert d cols cs[k], Ev.rollback],
       applyBatches d db (cs.take k), Except.error "BatchInsertError"⟩ := by
  induction cs with
  | nil =>
    intro k i acc db hk
    exact absurd hk (by simp)
  | cons c cs ih =>
    intro k i acc db hk hf hmin
    cases k with
    | zero =>
      have h0 : fails i = true := by simpa using hf
      simp [runBatches, h0, committedEvents, applyBatches]
    | succ k' =>
      have h0 : fails i = false := by
        have := hmin 0 (by omega)
        simpa using this
      simp only [runBatches, h0, Bool.false_eq_true, if_false]
      rw [ih k' (i + 1) (acc + c.length) (applyBatch db d c) (by simpa using hk)
        (by
          have e : i + 1 + k' = i + (k' + 1) := by omega
          rw [e]
          exact hf)
        (fun j hj => by
          have := hmin (j + 1) (by omega)
          have e : i + 1 + j = i + (j + 1) := by omega
          rw [e]
          exact this)]
      simp only [List.take_succ_cons, committedEvents, applyBatches, List.foldl_cons,
        List.getElem_cons_succ, List.cons_append]

theorem runBatches_tables (d : String) (cols : List String) (fails : Nat → Bool)
    (cs : List (List Row)) : ∀ (i acc : Nat) (db : DestDB),
    (runBatches d cols fails cs i acc db).dest.tables = db.tables := by
  induction cs with
  | nil => intro i acc db; rfl
  | cons c cs ih =>
    intro i acc db
    simp only [runBatches]
    by_cases h : fails i
    · simp [h]
    · simp only [h, Bool.false_eq_true, if_false]
      rw [ih, applyBatch_tables]

theorem runBatches_result (d : String) (cols : List String) (fails : Nat → Bool)
    (cs : List (List Row)) : ∀ (i acc : Nat) (db : DestDB),
    (runBatches d cols fails cs i acc db).result =
      if (List.range cs.length).any (fun j => fails (i + j)) then
        Except.error "BatchInsertError"
      else Except.ok (acc + (cs.map List.length).sum) := by
  induction cs with
  | nil =>
    intro i acc db
    simp [runBatches]
  | cons c cs ih =>
    intro i acc db
    by_cases h : fails i
    · have hany : (List.range (c :: cs).length).any (fun j => fails (i + j)) = true := by
        rw [List.any_eq_true]
        exact ⟨0, by simp, by simpa using h⟩
      simp only [runBatches, h, if_true]
      rw [hany]
      rfl
    · have heq : (List.range (c :: cs).length).any (fun j => fails (i + j)) =
          (List.range cs.length).any (fun j => fails (i + 1 + j)) := by
        rcases hcase : (List.range cs.length).any (fun j => fails (i + 1 + j)) with _ | _
        · rw [List.any_eq_false] at hcase ⊢
          intro j hj
          rw [List.mem_range] at hj
          cases j with
          | zero => simpa using h
          | succ j' =>
            have := hcase j' (by rw [List.mem_range]; simpa using hj)
            have e : i + (j' + 1) = i + 1 + j' := by omega
            rw [e]
            exact this
        · rw [List.any_eq_true] at hcase ⊢
          obtain ⟨j, hj, hfj⟩ := hcase
          rw [List.mem_range] at hj
          refine ⟨j + 1, by rw [List.mem_range]; simpa using Nat.succ_lt_succ hj, ?_⟩
          have e : i + (j + 1) = i + 1 + j := by omega
          rw [e]
          exact hfj
      simp only [runBatches, h, Bool.false_eq_true, if_false]
      rw [ih (i + 1) (acc + c.length) (applyBatch db d c), heq]
      by_cases hany : (List.range cs.length).any (fun j => fails (i + 1 + j))
      · simp [hany]
      · simp only [hany, Bool.false_eq_true, if_false, List.map_cons, List.sum_cons]
        congr 1
        omega

theorem runBatches_insert_mem (d : String) (cols : List String) (fails : Nat → Bool)
    (cs : List (List Row)) : ∀ (i acc : Nat) (db : DestDB) (tbl : String)
    (cls : List String) (rws : List Row),
    Ev.insert tbl cls rws ∈ (runBatches d cols fails cs i acc db).events →
    tbl = d ∧ cls = cols ∧ rws ∈ cs := by
  induction cs with
  | nil =>
    intro i acc db tbl cls rws h
    simp [runBatches] at h
  | cons c cs ih =>
    intro i acc db tbl cls rws h
    by_cases hf : fails i
    · simp only [runBatches, hf, if_true, List.mem_cons, List.not_mem_nil, or_false] at h
      rcases h with h | h
      · rw [Ev.insert.injEq] at h
        refine ⟨h.1, h.2.1, ?_⟩
        rw [h.2.2]
        exact List.mem_cons_self _ _
      · simp at h
    · simp only [runBatches, hf, Bool.false_eq_true, if_false, List.mem_cons] at h
      rcases h with h | h | h | h
      · rw [Ev.insert.injEq] at h
        refine ⟨h.1, h.2.1, ?_⟩
        rw [h.2.2]
        exact List.mem_cons_self _ _
      · simp at h
      · simp at h
      · obtain ⟨h1, h2, h3⟩ := ih _ _ _ _ _ _ h
        exact ⟨h1, h2, List.mem_cons_of_mem _ h3⟩

theorem contains_iff_mem (l : List String) (a : String) :
    l.contains a = true ↔ a ∈ l := by
  simp [List.contains, List.elem_iff]

theorem committedEvents_countP_insert (d : String) (cols : List String)
    (cs : List (List Row)) : ∀ (acc : Nat),
    (committedEvents d cols acc cs).countP isInsertEv = cs.length := by
  induction cs with
  | nil => intro acc; rfl
  | cons c cs ih =>
    intro acc
    simp [committedEvents, List.countP_cons, isInsertEv, ih]

theorem committedEvents_countP_commit (d : String) (cols : List String)
    (cs : List (List Row)) : ∀ (acc : Nat),
    (committedEvents d cols acc cs).countP isCommitEv = cs.length := by
  induction cs with
  | nil => intro acc; rfl
  | cons c cs ih =>
    intro acc
    simp [committedEvents, List.countP_cons, isCommitEv, ih]

theorem chunks_full (b : Nat) (hb : 0 < b) (rs : List Row) (i : Nat)
    (h : i + 1 < (chunks b rs).length) :
    ∀ (h0 : i < (chunks b rs).length), (chunks b rs)[i].length = b := by
  intro h0
  rw [chunks_getElem b hb rs i h0, List.length_take, List.length_drop]
  have hmem : (chunks b rs)[i + 1] ∈ chunks b rs := List.getElem_mem h
  have hne : (chunks b rs)[i + 1] ≠ [] := (chunks_ne_nil b rs _ hmem).1
  rw [chunks_getElem b hb rs (i + 1) h] at hne
  have hlen : (i + 1) * b < rs.length := by
    by_contra hcon
    push_neg at hcon
    apply hne
    rw [List.drop_eq_nil_of_le hcon, List.take_nil]
  have e : (i + 1) * b = i * b + b := by ring
  omega

theorem migrate_table_result (rows : List Row) (cols : List String) (d : String)
    (b : Nat) (fails : Nat → Bool) (db : DestDB) (hb : 0 < b) :
    (migrate_table rows cols d b fails db).result =
      if copyRaises fails (chunks b rows).length then Except.error "BatchInsertError"
      else Except.ok rows.length := by
  unfold migrate_table
  rw [runBatches_result]
  have e : ((List.range (chunks b rows).length).any fun j => fails (0 + j)) =
      copyRaises fails (chunks b rows).length := by
    unfold copyRaises
    congr 1
    funext j
    rw [Nat.zero_add]
  rw [e]
  cases hc : copyRaises fails (chunks b rows).length with
  | false =>
    simp only [hc, Bool.false_eq_true, if_false]
    rw [Nat.zero_add, ← List.length_flatten, chunks_join b hb]
  | true => simp [hc]

theorem migrate_table_tables (rows : List Row) (cols : List String) (d : String)
    (b : Nat) (fails : Nat → Bool) (db : DestDB) :
    (migrate_table rows cols d b fails db).dest.tables = db.tables :=
  runBatches_tables d cols fails (chunks b rows) 0 0 db

theorem migrate_table_insert_mem (rows : List Row) (cols : List String) (d : String)
    (b : Nat) (fails : Nat → Bool) (db : DestDB) (tbl : String) (cls : List String)
    (rws : List Row)
    (h : Ev.insert tbl cls rws ∈ (migrate_table rows cols d b fails db).events) :
    tbl = d ∧ cls = cols ∧ rws ∈ chunks b rows :=
  runBatches_insert_mem d cols fails (chunks b rows) 0 0 db tbl cls rws h

/-- Claim C4: for a source table of `n` rows and positive batch size `b`, a
successful single-table copy issues exactly `⌈n/b⌉ = (n + b - 1) / b`
batches (that many inserts and that many commits, one commit per batch),
the batches partition the source rows in order, every batch is non-empty
of size at most `b`, every batch except the last has size exactly `b`,
and the call returns the number of rows read from the source — `n`, not
the number of rows newly present at the destination. -/
theorem C4_batch_shape (rows : List Row) (cols : List String) (d : String) (b : Nat)
    (fails : Nat → Bool) (db : DestDB) (hb : 0 < b)
    (hok : ∀ i, i < (chunks b rows).length → fails i = false) :
    (migrate_table rows cols d b fails db).result = Except.ok rows.length ∧
    (migrate_table rows cols d b fails db).events =
      committedEvents d cols 0 (chunks b rows) ∧
    (chunks b rows).length = (rows.length + b - 1) / b ∧
    ((migrate_table rows cols d b fails db).events.countP isInsertEv =
      (rows.length + b - 1) / b) ∧
    ((migrate_table rows cols d b fails db).events.countP isCommitEv =
      (rows.length + b - 1) / b) ∧
    (chunks b rows).flatten = rows ∧
    (∀ c ∈ chunks b rows, c ≠ [] ∧ c.length ≤ b) ∧
    (∀ i, i + 1 < (chunks b rows).length →
      ∀ (h0 : i < (chunks b rows).length), (chunks b rows)[i].length = b) := by
  have hno : ∀ j, j < (chunks b rows).length → fails (0 + j) = false := by
    intro j hj
    rw [Nat.zero_add]
    exact hok j hj
  have hrun := runBatches_noFail d cols fails (chunks b rows) 0 0 db hno
  have hres : (migrate_table rows cols d b fails db) =
      ⟨committedEvents d cols 0 (chunks b rows), applyBatches d db (chunks b rows),
       Except.ok (0 + ((chunks b rows).map List.length).sum)⟩ := hrun
  rw [hres]
  refine ⟨?_, rfl, chunks_length b hb rows, ?_, ?_, chunks_join b hb rows,
    chunks_ne_nil b rows, ?_⟩
  · show Except.ok (0 + ((chunks b rows).map List.length).sum) = Except.ok rows.length
    rw [Nat.zero_add, ← List.length_flatten, chunks_join b hb]
  · show (committedEvents d cols 0 (chunks b rows)).countP isInsertEv = _
    rw [committedEvents_countP_insert, chunks_length b hb rows]
  · show (committedEvents d cols 0 (chunks b rows)).countP isCommitEv = _
    rw [committedEvents_countP_commit, chunks_length b hb rows]
  · intro i hi h0
    exact chunks_full b hb rows i hi h0

/-- Witness for C4 at the spec's own example: 5 rows, batch size 2 — three
batches of sizes 2, 2, 1, result 5, even though the first source row was
already present at the destination (only 4 rows are new there). -/
theorem C4_batch_shape_witness :
    (0 < 2 ∧ (∀ i, i < (chunks 2 rowsW).length → noFails i = false)) ∧
    ((migrate_table rowsW ["id"] "t" 2 noFails dbW).result = Except.ok rowsW.length ∧
     (migrate_table rowsW ["id"] "t" 2 noFails dbW).events =
       committedEvents "t" ["id"] 0 (chunks 2 rowsW) ∧
     (chunks 2 rowsW).length = (rowsW.length + 2 - 1) / 2 ∧
     ((migrate_table rowsW ["id"] "t" 2 noFails dbW).events.countP isInsertEv =
       (rowsW.length + 2 - 1) / 2) ∧
     ((migrate_table rowsW ["id"] "t" 2 noFails dbW).events.countP isCommitEv =
       (rowsW.length + 2 - 1) / 2) ∧
     (chunks 2 rowsW).flatten = rowsW ∧
     (∀ c ∈ chunks 2 rowsW, c ≠ [] ∧ c.length ≤ 2) ∧
     (∀ i, i + 1 < (chunks 2 rowsW).length →
       ∀ (h0 : i < (chunks 2 rowsW).length), (chunks 2 rowsW)[i].length = 2)) ∧
    (chunks 2 rowsW).length = 3 ∧
    (migrate_table rowsW ["id"] "t" 2 noFails dbW).dest.rows "t" =
      [["r1"], ["r2"], ["r3"], ["r4"], ["r5"]] :=
  ⟨⟨by decide, by decide⟩,
   C4_batch_shape rowsW ["id"] "t" 2 noFails dbW (by decide) (by decide),
   by decide, by decide⟩

/-- Claim C3: if batch `k` of a single-table copy fails (all earlier
batches having succeeded), the failing batch is rolled back, the error
propagates (`Except.error`), no further batch is attempted (the event
trace ends at the rollback), the rows of the `k` earlier committed batches
remain at the destination, and no other destination table is touched. -/
theorem C3_mid_table_failure (rows : List Row) (cols : List String) (d : String)
    (b : Nat) (fails : Nat → Bool) (db : DestDB) (k : Nat)
    (hk : k < (chunks b rows).length) (hf : fails k = true)
    (hmin : ∀ j, j < k → fails j = false) :
    (migrate_table rows cols d b fails db).result = Except.error "BatchInsertError" ∧
    (migrate_table rows cols d b fails db).events =
      committedEvents d cols 0 ((chunks b rows).take k) ++
        [Ev.insert d cols (chunks b rows)[k], Ev.rollback] ∧
    (migrate_table rows cols d b fails db).dest.rows d =
      ((chunks b rows).take k).foldl applyRows (db.rows d) ∧
    (∀ t, t ≠ d → (migrate_table rows cols d b fails db).dest.rows t = db.rows t) ∧
    (migrate_table rows cols d b fails db).dest.tables = db.tables := by
  have hres : migrate_table rows cols d b fails db =
      ⟨committedEvents d cols 0 ((chunks b rows).take k) ++
         [Ev.insert d cols (chunks b rows)[k], Ev.rollback],
       applyBatches d db ((chunks b rows).take k), Except.error "BatchInsertError"⟩ := by
    apply runBatches_fail d cols fails (chunks b rows) k 0 0 db hk
    · rw [Nat.zero_add]
      exact hf
    · intro j hj
      rw [Nat.zero_add]
      exact hmin j hj
  rw [hres]
  refine ⟨rfl, rfl, applyBatches_rows_self d _ db, ?_, applyBatches_tables d _ db⟩
  intro t ht
  exact applyBatches_rows_ne d _ db t ht

/-- Witness for C3 at the spec's boundary example: 5 rows, batch size 2,
third batch (index 2) fails — the copy errors out after committing the 4
rows of the two earlier batches; the destination keeps exactly those. -/
theorem C3_mid_table_failure_witness :
    (2 < (chunks 2 rowsW).length ∧ failsFrom2 2 = true ∧
      (∀ j, j < 2 → failsFrom2 j = false)) ∧
    ((migrate_table rowsW ["id"] "t" 2 failsFrom2 dbW).result =
       Except.error "BatchInsertError" ∧
     (migrate_table rowsW ["id"] "t" 2 failsFrom2 dbW).events =
       committedEvents "t" ["id"] 0 ((chunks 2 rowsW).take 2) ++
         [Ev.insert "t" ["id"] [["r5"]], Ev.rollback] ∧
     (migrate_table rowsW ["id"] "t" 2 failsFrom2 dbW).dest.rows "t" =
       ((chunks 2 rowsW).take 2).foldl applyRows (dbW.rows "t") ∧
     (∀ t, t ≠ "t" →
       (migrate_table rowsW ["id"] "t" 2 failsFrom2 dbW).dest.rows t = dbW.rows t) ∧
     (migrate_table rowsW ["id"] "t" 2 failsFrom2 dbW).dest.tables = dbW.tables) ∧
    (migrate_table rowsW ["id"] "t" 2 failsFrom2 dbW).dest.rows "t" =
      [["r1"], ["r2"], ["r3"], ["r4"]] :=
  ⟨⟨by decide, by decide, by decide⟩,
   C3_mid_table_failure rowsW ["id"] "t" 2 failsFrom2 dbW 2 (by decide) (by decide)
     (by decide),
   by decide⟩

/-- Claim C9: copying an empty source table issues no insert, no commit
(the event list is empty), leaves the destination untouched, and returns
row count 0. -/
theorem C9_empty_source (cols : List String) (d : String) (b : Nat)
    (fails : Nat → Bool) (db : DestDB) :
    migrate_table [] cols d b fails db = ⟨[], db, Except.ok 0⟩ := by
  cases b <;> rfl

theorem sumSuccessRows_nil : sumSuccessRows [] = 0 := rfl

theorem sumSuccessRows_cons (o : TOutcome) (os : List TOutcome) :
    sumSuccessRows (o :: os) = o.rowsOf + sumSuccessRows os := by
  simp [sumSuccessRows]

theorem infoPhase_ok (src : SourceDB) (f : String → Bool) (ts : List String)
    (h : ∀ t ∈ ts, f t = false) :
    infoPhase src f ts = (ts.map (fun t => Ev.info (get_table_info src t)), none) := by
  induction ts with
  | nil => rfl
  | cons t rest ih =>
    have h0 : f t = false := h t (List.mem_cons_self _ _)
    simp only [infoPhase, h0, Bool.false_eq_true, if_false]
    rw [ih (fun x hx => h x (List.mem_cons_of_mem _ hx))]
    rfl

theorem infoPhase_no_insert (src : SourceDB) (f : String → Bool) (ts : List String) :
    ∀ (tbl : String) (cls : List String) (rws : List Row),
    Ev.insert tbl cls rws ∉ (infoPhase src f ts).1 := by
  induction ts with
  | nil =>
    intro tbl cls rws h
    simp [infoPhase] at h
  | cons t rest ih =>
    intro tbl cls rws h
    by_cases hf : f t
    · simp [infoPhase, hf] at h
    · simp only [infoPhase, hf, Bool.false_eq_true, if_false] at h
      rcases List.mem_cons.mp h with h1 | h1
      · simp at h1
      · exact ih tbl cls rws h1

theorem runTables_tables (src : SourceDB) (maps : List (String × String)) (skip : Bool)
    (b : Nat) (eF : String → Bool) (bF : String → Nat → Bool) (ts : List String) :
    ∀ (st : LoopState),
    ((runTables src maps skip b eF bF ts st).1).dest.tables = st.dest.tables := by
  induction ts with
  | nil => intro st; rfl
  | cons t rest ih =>
    intro st
    simp only [runTables]
    split
    · split
      · rfl
      · split
        · rw [ih]
        · split
          · rw [ih]
            exact migrate_table_tables _ _ _ _ _ _
          · rw [ih]
            exact migrate_table_tables _ _ _ _ _ _
    · split
      · rw [ih]
        exact migrate_table_tables _ _ _ _ _ _
      · rw [ih]
        exact migrate_table_tables _ _ _ _ _ _

theorem runTables_spec (src : SourceDB) (maps : List (String × String)) (skip : Bool)
    (b : Nat) (eF : String → Bool) (bF : String → Nat → Bool) (hb : 0 < b)
    (ts : List String) : ∀ (st : LoopState),
    (skip = true → ∀ t ∈ ts, eF (mapDest maps t) = false) →
    (runTables src maps skip b eF bF ts st).2 = false ∧
    (runTables src maps skip b eF bF ts st).1.outcomes =
      st.outcomes ++ ts.map (tableOutcome src st.dest.tables maps skip b bF) ∧
    (runTables src maps skip b eF bF ts st).1.total =
      st.total + sumSuccessRows (ts.map (tableOutcome src st.dest.tables maps skip b bF)) := by
  induction ts with
  | nil =>
    intro st _
    exact ⟨rfl, by simp [runTables], by simp [runTables, sumSuccessRows]⟩
  | cons t rest ih =>
    intro st hef
    have hres := migrate_table_result (srcRowsOf src t) (srcColNames src t)
      (mapDest maps t) b (bF t) st.dest hb
    have hrest : skip = true → ∀ x ∈ rest, eF (mapDest maps x) = false :=
      fun hs x hx => hef hs x (List.mem_cons_of_mem _ hx)
    have htab : (migrate_table (srcRowsOf src t) (srcColNames src t)
        (mapDest maps t) b (bF t) st.dest).dest.tables = st.dest.tables :=
      migrate_table_tables _ _ _ _ _ _
    cases hskip : skip with
    | true =>
      rw [hskip] at ih
      have hih : true = true → ∀ x ∈ rest, eF (mapDest maps x) = false :=
        fun _ => hrest hskip
      have hnoEF : eF (mapDest maps t) = false :=
        hef hskip t (List.mem_cons_self _ _)
      cases hex : table_exists st.dest (mapDest maps t) with
      | true =>
        have hstep : runTables src maps true b eF bF (t :: rest) st =
            runTables src maps true b eF bF rest
              { st with
                outcomes := st.outcomes ++ [TOutcome.skipped t],
                events := st.events ++ [Ev.existsCheck (mapDest maps t)] } := by
          simp only [runTables, hnoEF, Bool.false_eq_true, if_false, hex, if_true]
        have hout : tableOutcome src st.dest.tables maps true b bF t =
            TOutcome.skipped t := by
          simp only [tableOutcome, Bool.true_and]
          rw [show st.dest.tables.contains (mapDest maps t) = true from hex, if_pos rfl]
        obtain ⟨ih1, ih2, ih3⟩ := ih
          { st with
            outcomes := st.outcomes ++ [TOutcome.skipped t],
            events := st.events ++ [Ev.existsCheck (mapDest maps t)] } hih
        rw [hstep]
        refine ⟨ih1, ?_, ?_⟩
        · rw [ih2]
          simp [hout, List.append_assoc]
        · rw [ih3]
          simp [hout, sumSuccessRows_cons, TOutcome.rowsOf]
      | false =>
        have hout : tableOutcome src st.dest.tables maps true b bF t =
            (if copyRaises (bF t) (chunks b (srcRowsOf src t)).length then
              TOutcome.failure t
            else TOutcome.success t (srcRowsOf src t).length) := by
          simp only [tableOutcome, Bool.true_and]
          rw [show st.dest.tables.contains (mapDest maps t) = false from hex]
          rw [if_neg (by simp)]
        cases hraise : copyRaises (bF t) (chunks b (srcRowsOf src t)).length with
        | true =>
          rw [hraise, if_pos rfl] at hres
          have hstep : runTables src maps true b eF bF (t :: rest) st =
              runTables src maps true b eF bF rest
                { outcomes := st.outcomes ++ [TOutcome.failure t],
                  events := (st.events ++ [Ev.existsCheck (mapDest maps t)]) ++
                    (migrate_table (srcRowsOf src t) (srcColNames src t)
                      (mapDest maps t) b (bF t) st.dest).events,
                  dest := (migrate_table (srcRowsOf src t) (srcColNames src t)
                    (mapDest maps t) b (bF t) st.dest).dest,
                  total := st.total } := by
            simp only [runTables, hnoEF, Bool.false_eq_true, if_false, hex, if_true]
            rw [hres]
          obtain ⟨ih1, ih2, ih3⟩ := ih
            { outcomes := st.outcomes ++ [TOutcome.failure t],
              events := (st.events ++ [Ev.existsCheck (mapDest maps t)]) ++
                (migrate_table (srcRowsOf src t) (srcColNames src t)
                  (mapDest maps t) b (bF t) st.dest).events,
              dest := (migrate_table (srcRowsOf src t) (srcColNames src t)
                (mapDest maps t) b (bF t) st.dest).dest,
              total := st.total } hih
          rw [hstep]
          refine ⟨ih1, ?_, ?_⟩
          · rw [ih2]
            simp [htab, hout, hraise, List.append_assoc]
          · rw [ih3]
            simp only [htab, List.map_cons, hout, hraise, eq_self_iff_true, if_true,
              sumSuccessRows_cons, TOutcome.rowsOf]
            omega
        | false =>
          rw [hraise] at hres
          rw [if_neg (by simp)] at hres
          have hstep : runTables src maps true b eF bF (t :: rest) st =
              runTables src maps true b eF bF rest
                { outcomes := st.outcomes ++
                    [TOutcome.success t (srcRowsOf src t).length],
                  events := (st.events ++ [Ev.existsCheck (mapDest maps t)]) ++
                    (migrate_table (srcRowsOf src t) (srcColNames src t)
                      (mapDest maps t) b (bF t) st.dest).events,
                  dest := (migrate_table (srcRowsOf src t) (srcColNames src t)
                    (mapDest maps t) b (bF t) st.dest).dest,
                  total := st.total + (srcRowsOf src t).length } := by
            simp only [runTables, hnoEF, Bool.false_eq_true, if_false, hex, if_true]
            rw [hres]
          obtain ⟨ih1, ih2, ih3⟩ := ih
            { outcomes := st.outcomes ++ [TOutcome.success t (srcRowsOf src t).length],
              events := (st.events ++ [Ev.existsCheck (mapDest maps t)]) ++
                (migrate_table (srcRowsOf src t) (srcColNames src t)
                  (mapDest maps t) b (bF t) st.dest).events,
              dest := (migrate_table (srcRowsOf src t) (srcColNames src t)
                (mapDest maps t) b (bF t) st.dest).dest,
              total := st.total + (srcRowsOf src t).length } hih
          rw [hstep]
          refine ⟨ih1, ?_, ?_⟩
          · rw [ih2]
            simp [htab, hout, hraise, List.append_assoc]
          · rw [ih3]
            simp only [htab, List.map_cons, hout, hraise, Bool.false_eq_true, if_false,
              sumSuccessRows_cons, TOutcome.rowsOf]
            omega
    | false =>
      rw [hskip] at ih
      have hih : false = true → ∀ x ∈ rest, eF (mapDest maps x) = false := by
        intro hcon
        simp at hcon
      have hout : tableOutcome src st.dest.tables maps false b bF t =
          (if copyRaises (bF t) (chunks b (srcRowsOf src t)).length then
            TOutcome.failure t
          else TOutcome.success t (srcRowsOf src t).length) := by
        simp only [tableOutcome, Bool.false_and]
        rw [if_neg (by simp)]
      cases hraise : copyRaises (bF t) (chunks b (srcRowsOf src t)).length with
      | true =>
        rw [hraise, if_pos rfl] at hres
        have hstep : runTables src maps false b eF bF (t :: rest) st =
            runTables src maps false b eF bF rest
              { outcomes := st.outcomes ++ [TOutcome.failure t],
                events := st.events ++
                  (migrate_table (srcRowsOf src t) (srcColNames src t)
                    (mapDest maps t) b (bF t) st.dest).events,
                dest := (migrate_table (srcRowsOf src t) (srcColNames src t)
                  (mapDest maps t) b (bF t) st.dest).dest,
                total := st.total } := by
          simp only [runTables, Bool.false_eq_true, if_false]
          rw [hres]
        obtain ⟨ih1, ih2, ih3⟩ := ih
          { outcomes := st.outcomes ++ [TOutcome.failure t],
            events := st.events ++
              (migrate_table (srcRowsOf src t) (srcColNames src t)
                (mapDest maps t) b (bF t) st.dest).events,
            dest := (migrate_table (srcRowsOf src t) (srcColNames src t)
              (mapDest maps t) b (bF t) st.dest).dest,
            total := st.total } hih
        rw [hstep]
        refine ⟨ih1, ?_, ?_⟩
        · rw [ih2]
          simp [htab, hout, hraise, List.append_assoc]
        · rw [ih3]
          simp only [htab, List.map_cons, hout, hraise, eq_self_iff_true, if_true,
            sumSuccessRows_cons, TOutcome.rowsOf]
          omega
      | false =>
        rw [hraise] at hres
        rw [if_neg (by simp)] at hres
        have hstep : runTables src maps false b eF bF (t :: rest) st =
            runTables src maps false b eF bF rest
              { outcomes := st.outcomes ++ [TOutcome.success t (srcRowsOf src t).length],
                events := st.events ++
                  (migrate_table (srcRowsOf src t) (srcColNames src t)
                    (mapDest maps t) b (bF t) st.dest).events,
                dest := (migrate_table (srcRowsOf src t) (srcColNames src t)
                  (mapDest maps t) b (bF t) st.dest).dest,
                total := st.total + (srcRowsOf src t).length } := by
          simp only [runTables, Bool.false_eq_true, if_false]
          rw [hres]
        obtain ⟨ih1, ih2, ih3⟩ := ih
          { outcomes := st.outcomes ++ [TOutcome.success t (srcRowsOf src t).length],
            events := st.events ++
              (migrate_table (srcRowsOf src t) (srcColNames src t)
                (mapDest maps t) b (bF t) st.dest).events,
            dest := (migrate_table (srcRowsOf src t) (srcColNames src t)
              (mapDest maps t) b (bF t) st.dest).dest,
            total := st.total + (srcRowsOf src t).length } hih
        rw [hstep]
        refine ⟨ih1, ?_, ?_⟩
        · rw [ih2]
          simp [htab, hout, hraise, List.append_assoc]
        · rw [ih3]
          simp only [htab, List.map_cons, hout, hraise, Bool.false_eq_true, if_false,
            sumSuccessRows_cons, TOutcome.rowsOf]
          omega

theorem runTables_inserts (src : SourceDB) (maps : List (String × String)) (skip : Bool)
    (b : Nat) (eF : String → Bool) (bF : String → Nat → Bool) (sel : List String)
    (dest0 : List String) (ts : List String) : ∀ (st : LoopState),
    (∀ x ∈ ts, x ∈ sel) → st.dest.tables = dest0 →
    (∀ tbl cls rws, Ev.insert tbl cls rws ∈ st.events →
      (∃ x, x ∈ sel ∧ tbl = mapDest maps x ∧ cls = srcColNames src x ∧
        rws ∈ chunks b (srcRowsOf src x)) ∧ (skip = true → tbl ∉ dest0)) →
    ∀ tbl cls rws,
      Ev.insert tbl cls rws ∈ (runTables src maps skip b eF bF ts st).1.events →
      (∃ x, x ∈ sel ∧ tbl = mapDest maps x ∧ cls = srcColNames src x ∧
        rws ∈ chunks b (srcRowsOf src x)) ∧ (skip = true → tbl ∉ dest0) := by
  induction ts with
  | nil =>
    intro st _ _ hst tbl cls rws hmem
    exact hst tbl cls rws hmem
  | cons t rest ih =>
    intro st hsel htab0 hst tbl cls rws hmem
    have hselr : ∀ x ∈ rest, x ∈ sel := fun x hx => hsel x (List.mem_cons_of_mem _ hx)
    have hselt : t ∈ sel := hsel t (List.mem_cons_self _ _)
    have hmtab : (migrate_table (srcRowsOf src t) (srcColNames src t)
        (mapDest maps t) b (bF t) st.dest).dest.tables = st.dest.tables :=
      migrate_table_tables _ _ _ _ _ _
    cases hskip : skip with
    | true =>
      rw [hskip] at ih hst hmem
      by_cases hef : eF (mapDest maps t) = true
      · have hstep : runTables src maps true b eF bF (t :: rest) st =
            ({ st with events := st.events ++ [Ev.existsCheck (mapDest maps t)] },
             true) := by
          simp only [runTables, hef, if_true]
        rw [hstep] at hmem
        simp only [List.mem_append, List.mem_singleton] at hmem
        rcases hmem with hmem | hmem
        · exact hst tbl cls rws hmem
        · simp at hmem
      · have hefF : eF (mapDest maps t) = false := by
          rcases Bool.dichotomy (eF (mapDest maps t)) with h | h
          · exact h
          · exact absurd h hef
        cases hex : table_exists st.dest (mapDest maps t) with
        | true =>
          have hstep : runTables src maps true b eF bF (t :: rest) st =
              runTables src maps true b eF bF rest
                { st with
                  outcomes := st.outcomes ++ [TOutcome.skipped t],
                  events := st.events ++ [Ev.existsCheck (mapDest maps t)] } := by
            simp only [runTables, hefF, Bool.false_eq_true, if_false, hex, if_true]
          rw [hstep] at hmem
          refine ih { st with
              outcomes := st.outcomes ++ [TOutcome.skipped t],
              events := st.events ++ [Ev.existsCheck (mapDest maps t)] }
            hselr htab0 ?_ tbl cls rws hmem
          intro tbl2 cls2 rws2 hmem2
          have hmem3 : Ev.insert tbl2 cls2 rws2 ∈
              st.events ++ [Ev.existsCheck (mapDest maps t)] := hmem2
          simp only [List.mem_append, List.mem_singleton] at hmem3
          rcases hmem3 with hmem3 | hmem3
          · exact hst tbl2 cls2 rws2 hmem3
          · simp at hmem3
        | false =>
          have hnotmem : mapDest maps t ∉ dest0 := by
            intro hmemd
            rw [← htab0] at hmemd
            have hc := (contains_iff_mem st.dest.tables (mapDest maps t)).mpr hmemd
            rw [show st.dest.tables.contains (mapDest maps t) = false from hex] at hc
            exact Bool.false_ne_true hc
          have hnext : ∀ (st2 : LoopState), st2.dest.tables = dest0 →
              st2.events = (st.events ++ [Ev.existsCheck (mapDest maps t)]) ++
                (migrate_table (srcRowsOf src t) (srcColNames src t)
                  (mapDest maps t) b (bF t) st.dest).events →
              Ev.insert tbl cls rws ∈
                (runTables src maps true b eF bF rest st2).1.events →
              (∃ x, x ∈ sel ∧ tbl = mapDest maps x ∧ cls = srcColNames src x ∧
                rws ∈ chunks b (srcRowsOf src x)) ∧ (true = true → tbl ∉ dest0) := by
            intro st2 h2tab h2ev hmem2
            refine ih st2 hselr h2tab ?_ tbl cls rws hmem2
            intro tbl3 cls3 rws3 hmem3
            rw [h2ev] at hmem3
            simp only [List.mem_append, List.mem_singleton] at hmem3
            rcases hmem3 with (hmem3 | hmem3) | hmem3
            · exact hst tbl3 cls3 rws3 hmem3
            · simp at hmem3
            · obtain ⟨e1, e2, e3⟩ := runBatches_insert_mem _ _ _ _ _ _ _ _ _ _ hmem3
              refine ⟨⟨t, hselt, e1, e2, e3⟩, fun _ => ?_⟩
              rw [e1]
              exact hnotmem
          cases hres : (migrate_table (srcRowsOf src t) (srcColNames src t)
              (mapDest maps t) b (bF t) st.dest).result with
          | ok n =>
            have hstep : runTables src maps true b eF bF (t :: rest) st =
                runTables src maps true b eF bF rest
                  { outcomes := st.outcomes ++ [TOutcome.success t n],
                    events := (st.events ++ [Ev.existsCheck (mapDest maps t)]) ++
                      (migrate_table (srcRowsOf src t) (srcColNames src t)
                        (mapDest maps t) b (bF t) st.dest).events,
                    dest := (migrate_table (srcRowsOf src t) (srcColNames src t)
                      (mapDest maps t) b (bF t) st.dest).dest,
                    total := st.total + n } := by
              simp only [runTables, hefF, Bool.false_eq_true, if_false, hex, if_true]
              rw [hres]
            rw [hstep] at hmem
            exact hnext _ (hmtab.trans htab0) rfl hmem
          | error e =>
            have hstep : runTables src maps true b eF bF (t :: rest) st =
                runTables src maps true b eF bF rest
                  { outcomes := st.outcomes ++ [TOutcome.failure t],
                    events := (st.events ++ [Ev.existsCheck (mapDest maps t)]) ++
                      (migrate_table (srcRowsOf src t) (srcColNames src t)
                        (mapDest maps t) b (bF t) st.dest).events,
                    dest := (migrate_table (srcRowsOf src t) (srcColNames src t)
                      (mapDest maps t) b (bF t) st.dest).dest,
                    total := st.total } := by
              simp only [runTables, hefF, Bool.false_eq_true, if_false, hex, if_true]
              rw [hres]
            rw [hstep] at hmem
            exact hnext _ (hmtab.trans htab0) rfl hmem
    | false =>
      rw [hskip] at ih hst hmem
      have hnext : ∀ (st2 : LoopState), st2.dest.tables = dest0 →
          st2.events = st.events ++
            (migrate_table (srcRowsOf src t) (srcColNames src t)
              (mapDest maps t) b (bF t) st.dest).events →
          Ev.insert tbl cls rws ∈ (runTables src maps false b eF bF rest st2).1.events →
          (∃ x, x ∈ sel ∧ tbl = mapDest maps x ∧ cls = srcColNames src x ∧
            rws ∈ chunks b (srcRowsOf src x)) ∧ (false = true → tbl ∉ dest0) := by
        intro st2 h2tab h2ev hmem2
        refine ih st2 hselr h2tab ?_ tbl cls rws hmem2
        intro tbl3 cls3 rws3 hmem3
        rw [h2ev] at hmem3
        simp only [List.mem_append] at hmem3
        rcases hmem3 with hmem3 | hmem3
        · exact hst tbl3 cls3 rws3 hmem3
        · obtain ⟨e1, e2, e3⟩ := runBatches_insert_mem _ _ _ _ _ _ _ _ _ _ hmem3
          exact ⟨⟨t, hselt, e1, e2, e3⟩, fun hcon => absurd hcon (by simp)⟩
      cases hres : (migrate_table (srcRowsOf src t) (srcColNames src t)
          (mapDest maps t) b (bF t) st.dest).result with
      | ok n =>
        have hstep : runTables src maps false b eF bF (t :: rest) st =
            runTables src maps false b eF bF rest
              { outcomes := st.outcomes ++ [TOutcome.success t n],
                events := st.events ++
                  (migrate_table (srcRowsOf src t) (srcColNames src t)
                    (mapDest maps t) b (bF t) st.dest).events,
                dest := (migrate_table (srcRowsOf src t) (srcColNames src t)
                  (mapDest maps t) b (bF t) st.dest).dest,
                total := st.total + n } := by
          simp only [runTables, Bool.false_eq_true, if_false]
          rw [hres]
        rw [hstep] at hmem
        exact hnext _ (hmtab.trans htab0) rfl hmem
      | error e =>
        have hstep : runTables src maps false b eF bF (t :: rest) st =
            runTables src maps false b eF bF rest
              { outcomes := st.outcomes ++ [TOutcome.failure t],
                events := st.events ++
                  (migrate_table (srcRowsOf src t) (srcColNames src t)
                    (mapDest maps t) b (bF t) st.dest).events,
                dest := (migrate_table (srcRowsOf src t) (srcColNames src t)
                  (mapDest maps t) b (bF t) st.dest).dest,
                total := st.total } := by
          simp only [runTables, Bool.false_eq_true, if_false]
          rw [hres]
        rw [hstep] at hmem
        exact hnext _ (hmtab.trans htab0) rfl hmem

theorem filter_missing_nil (src : SourceDB) (sel : List String)
    (hvalid : ∀ t ∈ sel, t ∈ get_tables src) :
    sel.filter (fun t => !((get_tables src).contains t)) = [] := by
  rw [List.filter_eq_nil_iff]
  intro t ht
  have hc : (get_tables src).contains t = true :=
    (contains_iff_mem _ _).mpr (hvalid t ht)
  rw [hc]
  simp

theorem migrate_run (src : SourceDB) (dest0 : DestDB) (iF : String → Bool)
    (eF : String → Bool) (bF : String → Nat → Bool) (sel : List String)
    (maps : List (String × String)) (skip : Bool) (b : Nat)
    (hvalid : ∀ t ∈ sel, t ∈ get_tables src) (hne : sel ≠ [])
    (hinfo : ∀ t ∈ sel, iF t = false) :
    migrate src dest0 iF eF bF true sel maps skip b =
      (match runTables src maps skip b eF bF sel
          ⟨[], sel.map (fun t => Ev.info (get_table_info src t)), dest0, 0⟩ with
       | (st, true) => ⟨st.outcomes, st.events, st.dest, RunExit.crashedExists⟩
       | (st, false) =>
         ⟨st.outcomes, st.events, st.dest, RunExit.completed sel.length st.total⟩) := by
  have hmiss := filter_missing_nil src sel hvalid
  have hsel : sel.isEmpty = false := by
    cases sel with
    | nil => exact absurd rfl hne
    | cons x xs => rfl
  simp only [migrate, hmiss, List.isEmpty_nil, Bool.not_true, Bool.false_eq_true,
    if_false, hsel, infoPhase_ok src iF sel hinfo, Bool.not_false]

theorem tableOutcome_table (src : SourceDB) (destTables : List String)
    (maps : List (String × String)) (skip : Bool) (b : Nat)
    (bF : String → Nat → Bool) (t : String) :
    (tableOutcome src destTables maps skip b bF t).table = t := by
  unfold tableOutcome
  split
  · rfl
  · split <;> rfl

/-- Outcome and exit characterization of a run that reaches the copy
loop: one outcome per plan entry, each determined by that entry's own
skip test and copy, and the summary exit with the success-row total. -/
theorem migrate_completed_spec (src : SourceDB) (dest0 : DestDB)
    (iF : String → Bool) (eF : String → Bool) (bF : String → Nat → Bool)
    (sel : List String) (maps : List (String × String)) (skip : Bool) (b : Nat)
    (hb : 0 < b) (hvalid : ∀ t ∈ sel, t ∈ get_tables src) (hne : sel ≠ [])
    (hinfo : ∀ t ∈ sel, iF t = false)
    (hex : skip = true → ∀ t ∈ sel, eF (mapDest maps t) = false) :
    (migrate src dest0 iF eF bF true sel maps skip b).outcomes =
      sel.map (tableOutcome src dest0.tables maps skip b bF) ∧
    (migrate src dest0 iF eF bF true sel maps skip b).exit =
      RunExit.completed sel.length
        (sumSuccessRows (migrate src dest0 iF eF bF true sel maps skip b).outcomes) := by
  have hrun := migrate_run src dest0 iF eF bF sel maps skip b hvalid hne hinfo
  have hspec := runTables_spec src maps skip b eF bF hb sel
    ⟨[], sel.map (fun t => Ev.info (get_table_info src t)), dest0, 0⟩ hex
  rcases hrt : runTables src maps skip b eF bF sel
      ⟨[], sel.map (fun t => Ev.info (get_table_info src t)), dest0, 0⟩ with ⟨st, flag⟩
  rw [hrt] at hrun hspec
  obtain ⟨hflag, hout, htot⟩ := hspec
  have hflag2 : flag = false := hflag
  subst hflag2
  have hout2 : st.outcomes = sel.map (tableOutcome src dest0.tables maps skip b bF) := by
    simpa using hout
  have htot2 : st.total =
      sumSuccessRows (sel.map (tableOutcome src dest0.tables maps skip b bF)) := by
    simpa using htot
  rw [hrun]
  refine ⟨hout2, ?_⟩
  show RunExit.completed sel.length st.total =
    RunExit.completed sel.length (sumSuccessRows st.outcomes)
  rw [htot2, hout2]

/-- Claim C1 (amended): an error raised by the Batch Copier
(`migrate_table`) while copying one table is caught, recorded as a
`failure` outcome for that table, and the run proceeds through every
remaining plan entry to the final summary — provided the steps that run
*outside* the `try` (the pre-copy `get_table_info` pass and the
skip-existing `table_exists` probe) raise no error; each plan entry's
outcome is exactly the one determined by its own copy, independent of
other tables' failures.  (The unamended claim — that Schema Inspector and
Existence Checker errors are also caught per-table — is refuted by
`C1_counterexample`.) -/
theorem C1_copy_failure_isolated (src : SourceDB) (dest0 : DestDB)
    (iF : String → Bool) (eF : String → Bool) (bF : String → Nat → Bool)
    (sel : List String) (maps : List (String × String)) (skip : Bool) (b : Nat)
    (hb : 0 < b) (hvalid : ∀ t ∈ sel, t ∈ get_tables src) (hne : sel ≠ [])
    (hinfo : ∀ t ∈ sel, iF t = false)
    (hex : skip = true → ∀ t ∈ sel, eF (mapDest maps t) = false) :
    (migrate src dest0 iF eF bF true sel maps skip b).outcomes =
      sel.map (tableOutcome src dest0.tables maps skip b bF) ∧
    (migrate src dest0 iF eF bF true sel maps skip b).exit =
      RunExit.completed sel.length
        (sumSuccessRows (migrate src dest0 iF eF bF true sel maps skip b).outcomes) :=
  migrate_completed_spec src dest0 iF eF bF sel maps skip b hb hvalid hne hinfo hex

/-- Counterexample to C1 as stated: with skip-existing on, the
`table_exists` probe for `B` raises; the error is *not* caught, `B` gets
no failure outcome, `C` is never attempted, and the run aborts instead of
completing — contradicting the claim that Existence Checker errors are
handled by per-table isolation. -/
theorem C1_counterexample :
    (migrate srcABC destEmpty neverFails eFailB bNever true
      ["A", "B", "C"] [] true 100).outcomes = [TOutcome.success "A" 1] ∧
    (migrate srcABC destEmpty neverFails eFailB bNever true
      ["A", "B", "C"] [] true 100).exit = RunExit.crashedExists := by
  constructor
  · decide
  · decide

/-- Witness for the amended C1 at the spec's own example: plan
`[A, B, C]` where only `B`'s copy raises — `A` and `C` are attempted and
succeed, `B` is recorded as a failure, and the run completes. -/
theorem C1_copy_failure_isolated_witness :
    (0 < 100 ∧ (∀ t ∈ ["A", "B", "C"], t ∈ get_tables srcABC) ∧
      ["A", "B", "C"] ≠ ([] : List String) ∧
      (∀ t ∈ ["A", "B", "C"], neverFails t = false) ∧
      (false = true → ∀ t ∈ ["A", "B", "C"],
        neverFails (mapDest [] t) = false)) ∧
    ((migrate srcABC destEmpty neverFails neverFails bFailB true
        ["A", "B", "C"] [] false 100).outcomes =
      ["A", "B", "C"].map (tableOutcome srcABC destEmpty.tables [] false 100 bFailB) ∧
     (migrate srcABC destEmpty neverFails neverFails bFailB true
        ["A", "B", "C"] [] false 100).exit =
      RunExit.completed (["A", "B", "C"] : List String).length
        (sumSuccessRows (migrate srcABC destEmpty neverFails neverFails bFailB true
          ["A", "B", "C"] [] false 100).outcomes)) ∧
    (migrate srcABC destEmpty neverFails neverFails bFailB true
        ["A", "B", "C"] [] false 100).outcomes =
      [TOutcome.success "A" 1, TOutcome.failure "B", TOutcome.success "C" 1] :=
  ⟨⟨by decide, by decide, by decide, by decide, by decide⟩,
   C1_copy_failure_isolated srcABC destEmpty neverFails neverFails bFailB
     ["A", "B", "C"] [] false 100 (by decide) (by decide) (by decide) (by decide)
     (by decide),
   by decide⟩

/-- Counterexample to C5 as stated: not every run terminates by producing
a summary, even restricted to runs in which a table fails.  In this run
table `A`'s copy fails — duly recorded as a failure outcome — but then
table `B`'s existence probe raises outside the `try`, so the run aborts
(`crashedExists`) without ever reaching the summary print: `C` is never
attempted and no `completed` exit (the summary with its table and row
counts) is produced, while `A`'s failure has already occurred. -/
theorem C5_counterexample :
    (migrate srcABC destEmpty neverFails eFailB bAlways true
      ["A", "B", "C"] [] true 100).outcomes = [TOutcome.failure "A"] ∧
    (migrate srcABC destEmpty neverFails eFailB bAlways true
      ["A", "B", "C"] [] true 100).exit = RunExit.crashedExists := by
  constructor
  · decide
  · decide

/-- Claim C5 (amended): a run that reaches the copy loop and in which
neither the pre-copy info pass nor any existence probe raises (those
errors run outside the `try` and abort the run without a summary — see
`C5_counterexample`) always terminates in the printed summary — even when
some or all copies fail — whose table count is the plan length and whose
row total is the sum of rows over exactly the successful tables (skipped
and failed tables contribute zero, by definition of `sumSuccessRows`);
and the run records one outcome per plan entry, in plan order, each
naming its table and distinguishing success / skipped / failure. -/
theorem C5_summary (src : SourceDB) (dest0 : DestDB) (iF : String → Bool)
    (eF : String → Bool) (bF : String → Nat → Bool) (sel : List String)
    (maps : List (String × String)) (skip : Bool) (b : Nat)
    (hb : 0 < b) (hvalid : ∀ t ∈ sel, t ∈ get_tables src) (hne : sel ≠ [])
    (hinfo : ∀ t ∈ sel, iF t = false)
    (hex : skip = true → ∀ t ∈ sel, eF (mapDest maps t) = false) :
    (migrate src dest0 iF eF bF true sel maps skip b).exit =
      RunExit.completed sel.length
        (sumSuccessRows (migrate src dest0 iF eF bF true sel maps skip b).outcomes) ∧
    (migrate src dest0 iF eF bF true sel maps skip b).outcomes.map TOutcome.table =
      sel := by
  obtain ⟨hout, hexit⟩ := migrate_completed_spec src dest0 iF eF bF sel maps skip b
    hb hvalid hne hinfo hex
  refine ⟨hexit, ?_⟩
  rw [hout, List.map_map]
  have : (TOutcome.table ∘ tableOutcome src dest0.tables maps skip b bF) = id := by
    funext t
    exact tableOutcome_table src dest0.tables maps skip b bF t
  rw [this, List.map_id]

/-- Witness for C5 in a run where every copy fails: the summary is still
produced, reporting 3 tables and 0 rows, with three failure outcomes. -/
theorem C5_summary_witness :
    (0 < 100 ∧ (∀ t ∈ ["A", "B", "C"], t ∈ get_tables srcABC) ∧
      ["A", "B", "C"] ≠ ([] : List String) ∧
      (∀ t ∈ ["A", "B", "C"], neverFails t = false) ∧
      (false = true → ∀ t ∈ ["A", "B", "C"],
        neverFails (mapDest [] t) = false)) ∧
    ((migrate srcABC destEmpty neverFails neverFails bAlways true
        ["A", "B", "C"] [] false 100).exit =
      RunExit.completed (["A", "B", "C"] : List String).length
        (sumSuccessRows (migrate srcABC destEmpty neverFails neverFails bAlways true
          ["A", "B", "C"] [] false 100).outcomes) ∧
     (migrate srcABC destEmpty neverFails neverFails bAlways true
        ["A", "B", "C"] [] false 100).outcomes.map TOutcome.table = ["A", "B", "C"]) ∧
    (migrate srcABC destEmpty neverFails neverFails bAlways true
        ["A", "B", "C"] [] false 100).outcomes =
      [TOutcome.failure "A", TOutcome.failure "B", TOutcome.failure "C"] ∧
    (migrate srcABC destEmpty neverFails neverFails bAlways true
        ["A", "B", "C"] [] false 100).exit = RunExit.completed 3 0 :=
  ⟨⟨by decide, by decide, by decide, by decide, by decide⟩,
   C5_summary srcABC destEmpty neverFails neverFails bAlways
     ["A", "B", "C"] [] false 100 (by decide) (by decide) (by decide) (by decide)
     (by decide),
   by decide, by decide⟩

/-- Claim C6: with skip-existing active, a plan entry whose mapped
destination name already exists at the destination is recorded as
`skipped`; the run continues to completion through the remaining entries;
and no insert whatsoever is issued against any already-existing
destination table during the whole run. -/
theorem C6_skip_existing (src : SourceDB) (dest0 : DestDB) (iF : String → Bool)
    (eF : String → Bool) (bF : String → Nat → Bool) (sel : List String)
    (maps : List (String × String)) (b : Nat)
    (hb : 0 < b) (hvalid : ∀ t ∈ sel, t ∈ get_tables src) (hne : sel ≠ [])
    (hinfo : ∀ t ∈ sel, iF t = false)
    (hex : ∀ t ∈ sel, eF (mapDest maps t) = false) :
    (∀ t ∈ sel, mapDest maps t ∈ dest0.tables →
      TOutcome.skipped t ∈ (migrate src dest0 iF eF bF true sel maps true b).outcomes) ∧
    (∀ i, ∀ (h : i < sel.length), mapDest maps (sel.get ⟨i, h⟩) ∈ dest0.tables →
      (migrate src dest0 iF eF bF true sel maps true b).outcomes[i]? =
        some (TOutcome.skipped (sel.get ⟨i, h⟩))) ∧
    (∀ d ∈ dest0.tables, ∀ (cls : List String) (rws : List Row),
      Ev.insert d cls rws ∉ (migrate src dest0 iF eF bF true sel maps true b).events) ∧
    (∃ total, (migrate src dest0 iF eF bF true sel maps true b).exit =
      RunExit.completed sel.length total) := by
  obtain ⟨hout, hexit⟩ := migrate_completed_spec src dest0 iF eF bF sel maps true b
    hb hvalid hne hinfo (fun _ => hex)
  have hskipOut : ∀ t, mapDest maps t ∈ dest0.tables →
      tableOutcome src dest0.tables maps true b bF t = TOutcome.skipped t := by
    intro t hmem
    unfold tableOutcome
    rw [if_pos]
    rw [Bool.true_and]
    exact (contains_iff_mem _ _).mpr hmem
  refine ⟨?_, ?_, ?_, ⟨_, hexit⟩⟩
  · intro t ht hmem
    rw [hout]
    rw [← hskipOut t hmem]
    exact List.mem_map_of_mem _ ht
  · intro i h hmem
    rw [hout]
    rw [List.getElem?_map]
    rw [List.getElem?_eq_getElem h]
    show some (tableOutcome src dest0.tables maps true b bF (sel.get ⟨i, h⟩)) =
      some (TOutcome.skipped (sel.get ⟨i, h⟩))
    rw [hskipOut _ hmem]
  · intro d hd cls rws hmem
    have hshape : ∀ tbl cls2 rws2,
        Ev.insert tbl cls2 rws2 ∈ (migrate src dest0 iF eF bF true sel maps true b).events →
        (∃ x, x ∈ sel ∧ tbl = mapDest maps x ∧ cls2 = srcColNames src x ∧
          rws2 ∈ chunks b (srcRowsOf src x)) ∧ (true = true → tbl ∉ dest0.tables) := by
      intro tbl cls2 rws2 hm
      have hrun := migrate_run src dest0 iF eF bF sel maps true b hvalid hne hinfo
      rw [hrun] at hm
      rcases hrt : runTables src maps true b eF bF sel
          ⟨[], sel.map (fun t => Ev.info (get_table_info src t)), dest0, 0⟩ with ⟨st, flag⟩
      rw [hrt] at hm
      have hbase : ∀ tbl3 cls3 rws3, Ev.insert tbl3 cls3 rws3 ∈
          (⟨[], sel.map (fun t => Ev.info (get_table_info src t)), dest0, 0⟩ :
            LoopState).events →
          (∃ x, x ∈ sel ∧ tbl3 = mapDest maps x ∧ cls3 = srcColNames src x ∧
            rws3 ∈ chunks b (srcRowsOf src x)) ∧ (true = true → tbl3 ∉ dest0.tables) := by
        intro tbl3 cls3 rws3 hm3
        have hm4 : Ev.insert tbl3 cls3 rws3 ∈
            sel.map (fun t => Ev.info (get_table_info src t)) := hm3
        rw [List.mem_map] at hm4
        obtain ⟨x, _, hx⟩ := hm4
        exact Ev.noConfusion hx
      have := runTables_inserts src maps true b eF bF sel dest0.tables sel
        ⟨[], sel.map (fun t => Ev.info (get_table_info src t)), dest0, 0⟩
        (fun x hx => hx) rfl hbase tbl cls2 rws2
      rw [hrt] at this
      cases flag with
      | true => exact this hm
      | false => exact this hm
    exact (hshape d cls rws hmem).2 rfl hd

/-- Witness for C6 at the spec's example: destination already contains
`orders`; a plan `["orders", "users"]` with skip-existing on records
`orders` as skipped, copies `users`, completes, and issues no insert
against `orders`. -/
theorem C6_skip_existing_witness :
    (0 < 100 ∧ (∀ t ∈ ["orders", "users"], t ∈ get_tables srcOrd) ∧
      ["orders", "users"] ≠ ([] : List String) ∧
      (∀ t ∈ ["orders", "users"], neverFails t = false) ∧
      (∀ t ∈ ["orders", "users"], neverFails (mapDest [] t) = false)) ∧
    ((∀ t ∈ ["orders", "users"], mapDest [] t ∈ destOrd.tables →
       TOutcome.skipped t ∈ (migrate srcOrd destOrd neverFails neverFails bNever true
         ["orders", "users"] [] true 100).outcomes) ∧
     (∀ i, ∀ (h : i < (["orders", "users"] : List String).length),
       mapDest [] ((["orders", "users"] : List String).get ⟨i, h⟩) ∈ destOrd.tables →
       (migrate srcOrd destOrd neverFails neverFails bNever true
         ["orders", "users"] [] true 100).outcomes[i]? =
         some (TOutcome.skipped ((["orders", "users"] : List String).get ⟨i, h⟩))) ∧
     (∀ d ∈ destOrd.tables, ∀ (cls : List String) (rws : List Row),
       Ev.insert d cls rws ∉ (migrate srcOrd destOrd neverFails neverFails bNever true
         ["orders", "users"] [] true 100).events) ∧
     (∃ total, (migrate srcOrd destOrd neverFails neverFails bNever true
       ["orders", "users"] [] true 100).exit =
       RunExit.completed (["orders", "users"] : List String).length total)) ∧
    (migrate srcOrd destOrd neverFails neverFails bNever true
      ["orders", "users"] [] true 100).outcomes =
      [TOutcome.skipped "orders", TOutcome.success "users" 1] :=
  ⟨⟨by decide, by decide, by decide, by decide, by decide⟩,
   C6_skip_existing srcOrd destOrd neverFails neverFails bNever
     ["orders", "users"] [] 100 (by decide) (by decide) (by decide) (by decide)
     (by decide),
   by decide⟩

/-- Claim C7: the destination name of a plan entry is the mapping's value
when the entry is a key and the entry itself otherwise (an empty mapping
maps everything to itself — the code's `if table_mappings else` guard
collapses to the same rule); and every insert issued anywhere in a run
targets the mapped destination name of some plan entry, with exactly that
entry's source column names (in source order) and rows drawn from its
source batches. -/
theorem C7_name_mapping (src : SourceDB) (dest0 : DestDB) (iF : String → Bool)
    (eF : String → Bool) (bF : String → Nat → Bool) (confirm : Bool)
    (sel : List String) (maps : List (String × String)) (skip : Bool) (b : Nat) :
    (∀ (maps2 : List (String × String)) (t : String),
      mapDest maps2 t = ((maps2.lookup t).getD t)) ∧
    (∀ (tbl : String) (cls : List String) (rws : List Row),
      Ev.insert tbl cls rws ∈
        (migrate src dest0 iF eF bF confirm sel maps skip b).events →
      ∃ x, x ∈ sel ∧ tbl = mapDest maps x ∧ cls = srcColNames src x ∧
        rws ∈ chunks b (srcRowsOf src x)) := by
  constructor
  · intro maps2 t
    cases maps2 with
    | nil => rfl
    | cons p ps => rfl
  · intro tbl cls rws hmem
    have hshape : (∃ x, x ∈ sel ∧ tbl = mapDest maps x ∧ cls = srcColNames src x ∧
        rws ∈ chunks b (srcRowsOf src x)) ∧ (skip = true → tbl ∉ dest0.tables) := by
      rcases hmissC : (sel.filter (fun t => !((get_tables src).contains t))).isEmpty
        with _ | _
      · have heq : migrate src dest0 iF eF bF confirm sel maps skip b =
            ⟨[], [], dest0, RunExit.validationError
              (sel.filter (fun t => !((get_tables src).contains t)))⟩ := by
          simp only [migrate, hmissC, Bool.not_false, eq_self_iff_true, if_true]
        rw [heq] at hmem
        exact absurd hmem (by simp)
      · rcases hselC : sel.isEmpty with _ | _
        · rcases hip : infoPhase src iF sel with ⟨evs, oi⟩
          have hevs : evs = (infoPhase src iF sel).1 := by rw [hip]
          cases oi with
          | some t2 =>
            have heq : migrate src dest0 iF eF bF confirm sel maps skip b =
                ⟨[], evs, dest0, RunExit.crashedInfo t2⟩ := by
              simp only [migrate, hmissC, Bool.not_true, Bool.false_eq_true, if_false,
                hselC, hip]
            rw [heq] at hmem
            exfalso
            have hnone := infoPhase_no_insert src iF sel tbl cls rws
            rw [← hevs] at hnone
            exact hnone hmem
          | none =>
            cases hconf : confirm with
            | false =>
              have heq : migrate src dest0 iF eF bF confirm sel maps skip b =
                  ⟨[], evs, dest0, RunExit.cancelled⟩ := by
                simp only [migrate, hmissC, Bool.not_true, Bool.false_eq_true, if_false,
                  hselC, hip, hconf, Bool.not_false, eq_self_iff_true, if_true]
              rw [heq] at hmem
              exfalso
              have hnone := infoPhase_no_insert src iF sel tbl cls rws
              rw [← hevs] at hnone
              exact hnone hmem
            | true =>
              rcases hrt : runTables src maps skip b eF bF sel ⟨[], evs, dest0, 0⟩
                with ⟨st, flag⟩
              have hbase : ∀ tbl3 cls3 rws3, Ev.insert tbl3 cls3 rws3 ∈
                  (⟨[], evs, dest0, 0⟩ : LoopState).events →
                  (∃ x, x ∈ sel ∧ tbl3 = mapDest maps x ∧ cls3 = srcColNames src x ∧
                    rws3 ∈ chunks b (srcRowsOf src x)) ∧
                  (skip = true → tbl3 ∉ dest0.tables) := by
                intro tbl3 cls3 rws3 hm3
                exfalso
                have hnone := infoPhase_no_insert src iF sel tbl3 cls3 rws3
                rw [← hevs] at hnone
                exact hnone hm3
              have hins := runTables_inserts src maps skip b eF bF sel dest0.tables sel
                ⟨[], evs, dest0, 0⟩ (fun x hx => hx) rfl hbase tbl cls rws
              rw [hrt] at hins
              cases flag with
              | true =>
                have heq : migrate src dest0 iF eF bF confirm sel maps skip b =
                    ⟨st.outcomes, st.events, st.dest, RunExit.crashedExists⟩ := by
                  simp only [migrate, hmissC, Bool.not_true, Bool.false_eq_true, if_false,
                    hselC, hip, hconf, Bool.not_true, hrt]
                rw [heq] at hmem
                exact hins hmem
              | false =>
                have heq : migrate src dest0 iF eF bF confirm sel maps skip b =
                    ⟨st.outcomes, st.events, st.dest,
                     RunExit.completed sel.length st.total⟩ := by
                  simp only [migrate, hmissC, Bool.not_true, Bool.false_eq_true, if_false,
                    hselC, hip, hconf, hrt]
                rw [heq] at hmem
                exact hins hmem
        · have heq : migrate src dest0 iF eF bF confirm sel maps skip b =
              ⟨[], [], dest0, RunExit.noTablesError⟩ := by
            simp only [migrate, hmissC, Bool.not_true, Bool.false_eq_true, if_false,
              hselC, eq_self_iff_true, if_true]
          rw [heq] at hmem
          exact absurd hmem (by simp)
    exact hshape.1

/-- Witness for C7 at the spec's example: mapping `old_users → users_v2`
sends `old_users`'s row into an insert on `users_v2` that names
`old_users`'s columns `id`, `email` in order. -/
theorem C7_name_mapping_witness :
    (Ev.insert "users_v2" ["id", "email"] [["1", "a"]] ∈
      (migrate srcOld destEmpty neverFails neverFails bNever true
        ["old_users"] [("old_users", "users_v2")] false 100).events) ∧
    (∃ x, x ∈ ["old_users"] ∧ "users_v2" = mapDest [("old_users", "users_v2")] x ∧
      ["id", "email"] = srcColNames srcOld x ∧
      [["1", "a"]] ∈ chunks 100 (srcRowsOf srcOld x)) :=
  ⟨by decide,
   (C7_name_mapping srcOld destEmpty neverFails neverFails bNever true
     ["old_users"] [("old_users", "users_v2")] false 100).2
     "users_v2" ["id", "email"] [["1", "a"]] (by decide)⟩

/-- Claim C2: when the requested table list contains names absent from
the discovered source tables, the run exits at validation with the
complete list of missing names (in request order): no outcome is
recorded, no destination-side query or insert is issued, and the
destination state is returned untouched.  When every requested name is
present, the run never exits with a plan-validation error. -/
theorem C2_plan_validation (src : SourceDB) (dest0 : DestDB) (iF : String → Bool)
    (eF : String → Bool) (bF : String → Nat → Bool) (confirm : Bool)
    (sel : List String) (maps : List (String × String)) (skip : Bool) (b : Nat) :
    (sel.filter (fun t => !((get_tables src).contains t)) ≠ [] →
      migrate src dest0 iF eF bF confirm sel maps skip b =
        ⟨[], [], dest0, RunExit.validationError
          (sel.filter (fun t => !((get_tables src).contains t)))⟩) ∧
    (sel.filter (fun t => !((get_tables src).contains t)) = [] →
      ∀ l, (migrate src dest0 iF eF bF confirm sel maps skip b).exit ≠
        RunExit.validationError l) := by
  constructor
  · intro hne
    have hmissC : (sel.filter (fun t => !((get_tables src).contains t))).isEmpty =
        false := by
      rcases hc : (sel.filter (fun t => !((get_tables src).contains t))).isEmpty
        with _ | _
      · rfl
      · exact absurd (List.isEmpty_iff.mp hc) hne
    simp only [migrate, hmissC, Bool.not_false, eq_self_iff_true, if_true]
  · intro hemp l
    have hmissC : (sel.filter (fun t => !((get_tables src).contains t))).isEmpty =
        true := by
      rw [List.isEmpty_iff]
      exact hemp
    rcases hselC : sel.isEmpty with _ | _
    · rcases hip : infoPhase src iF sel with ⟨evs, oi⟩
      cases oi with
      | some t2 =>
        have heq : migrate src dest0 iF eF bF confirm sel maps skip b =
            ⟨[], evs, dest0, RunExit.crashedInfo t2⟩ := by
          simp only [migrate, hmissC, Bool.not_true, Bool.false_eq_true, if_false,
            hselC, hip]
        rw [heq]
        simp
      | none =>
        cases confirm with
        | false =>
          have heq : migrate src dest0 iF eF bF false sel maps skip b =
              ⟨[], evs, dest0, RunExit.cancelled⟩ := by
            simp only [migrate, hmissC, Bool.not_true, Bool.false_eq_true, if_false,
              hselC, hip, Bool.not_false, eq_self_iff_true, if_true]
          rw [heq]
          simp
        | true =>
          rcases hrt : runTables src maps skip b eF bF sel ⟨[], evs, dest0, 0⟩
            with ⟨st, flag⟩
          cases flag with
          | true =>
            have heq : migrate src dest0 iF eF bF true sel maps skip b =
                ⟨st.outcomes, st.events, st.dest, RunExit.crashedExists⟩ := by
              simp only [migrate, hmissC, Bool.not_true, Bool.false_eq_true, if_false,
                hselC, hip, hrt]
            rw [heq]
            simp
          | false =>
            have heq : migrate src dest0 iF eF bF true sel maps skip b =
                ⟨st.outcomes, st.events, st.dest,
                 RunExit.completed sel.length st.total⟩ := by
              simp only [migrate, hmissC, Bool.not_true, Bool.false_eq_true, if_false,
                hselC, hip, hrt]
            rw [heq]
            simp
    · have heq : migrate src dest0 iF eF bF confirm sel maps skip b =
          ⟨[], [], dest0, RunExit.noTablesError⟩ := by
        simp only [migrate, hmissC, Bool.not_true, Bool.false_eq_true, if_false,
          hselC, eq_self_iff_true, if_true]
      rw [heq]
      simp

/-- Witness for C2 at the spec's example: requesting `users, ghost` when
the source has only `users, posts` exits with `PlanValidationError`
listing exactly `["ghost"]`, touching nothing; requesting only `users`
does not exit with a validation error. -/
theorem C2_plan_validation_witness :
    ((["users", "ghost"].filter
        (fun t => !((get_tables srcUP).contains t)) ≠ []) ∧
      migrate srcUP destEmpty neverFails neverFails bNever true
        ["users", "ghost"] [] false 100 =
        ⟨[], [], destEmpty, RunExit.validationError ["ghost"]⟩) ∧
    ((["users"].filter (fun t => !((get_tables srcUP).contains t)) = []) ∧
      ∀ l, (migrate srcUP destEmpty neverFails neverFails bNever true
        ["users"] [] false 100).exit ≠ RunExit.validationError l) :=
  ⟨⟨by decide,
    (C2_plan_validation srcUP destEmpty neverFails neverFails bNever true
      ["users", "ghost"] [] false 100).1 (by decide)⟩,
   ⟨by decide,
    (C2_plan_validation srcUP destEmpty neverFails neverFails bNever true
      ["users"] [] false 100).2 (by decide)⟩⟩

/-- Counterexample to C8 as stated: `pgatable` starts with neither literal
prefix `pg_` nor `_prisma`, and is a base table of the source's public
schema, yet `get_tables` omits it — the code's filter is the SQL `LIKE`
pattern `pg_%`, whose `_` matches any single character (here `a`), not a
literal-prefix test. -/
theorem C8_counterexample :
    List.isPrefixOf "pg_".data "pgatable".data = false ∧
    List.isPrefixOf "_prisma".data "pgatable".data = false ∧
    (⟨"pgatable", "public", "BASE TABLE", [⟨"id", "text"⟩], []⟩ : SrcTable) ∈
      srcPG.tables ∧
    "pgatable" ∉ get_tables srcPG ∧
    likeStr "pg_%" "pgatable" = true := by decide

/-- Claim C8 (amended): `get_tables` returns exactly the names of the
source's relations with `table_schema = 'public'` and
`table_type = 'BASE TABLE'` that match neither SQL `LIKE` pattern
`pg_%` nor `_prisma%` — where `_` matches any single character, so this
is broader than a literal-prefix exclusion (see `C8_counterexample`) —
sorted lexicographically; and, the model being a pure function of the
source state, two calls without intervening schema changes coincide. -/
theorem C8_list_tables (src : SourceDB) :
    List.Sorted (fun a b : String => a ≤ b) (get_tables src) ∧
    (∀ t, t ∈ get_tables src ↔ ∃ st, st ∈ src.tables ∧ st.name = t ∧
      st.schema = "public" ∧ st.tableType = "BASE TABLE" ∧
      likeStr "pg_%" t = false ∧ likeStr "_prisma%" t = false) ∧
    get_tables src = get_tables src := by
  refine ⟨?_, ?_, rfl⟩
  · have htot : IsTotal String (fun a b : String => strLe a b = true) := ⟨by
      intro a b
      rcases le_total a b with h | h
      · exact Or.inl ((strLe_iff_le a b).mpr h)
      · exact Or.inr ((strLe_iff_le b a).mpr h)⟩
    have htrans : IsTrans String (fun a b : String => strLe a b = true) := ⟨by
      intro a b c hab hbc
      exact (strLe_iff_le a c).mpr
        (le_trans ((strLe_iff_le a b).mp hab) ((strLe_iff_le b c).mp hbc))⟩
    have hs := @List.sorted_insertionSort String
      (fun a b : String => strLe a b = true) (fun a b => instDecidableEqBool _ _)
      htot htrans
      ((src.tables.filter (fun t =>
          t.schema == "public" && t.tableType == "BASE TABLE" &&
          !(likeStr "pg_%" t.name) && !(likeStr "_prisma%" t.name))).map
        (fun t => t.name))
    exact List.Pairwise.imp (fun h => (strLe_iff_le _ _).mp h) hs
  · intro t
    unfold get_tables
    rw [List.Perm.mem_iff (List.perm_insertionSort _ _), List.mem_map]
    constructor
    · rintro ⟨st, hst, rfl⟩
      rw [List.mem_filter] at hst
      obtain ⟨hmem, hp⟩ := hst
      simp only [Bool.and_eq_true, beq_iff_eq, Bool.not_eq_true'] at hp
      exact ⟨st, hmem, rfl, hp.1.1.1, hp.1.1.2, hp.1.2, hp.2⟩
    · rintro ⟨st, hmem, rfl, hschema, htype, hpg, hpr⟩
      refine ⟨st, ?_, rfl⟩
      rw [List.mem_filter]
      refine ⟨hmem, ?_⟩
      simp [hschema, htype, hpg, hpr]

/-- Witness for C8: on the two-table source, the characterization puts
`posts` in the listing. -/
theorem C8_list_tables_witness : "posts" ∈ get_tables srcUP :=
  ((C8_list_tables srcUP).2.1 "posts").mpr
    ⟨⟨"posts", "public", "BASE TABLE", [⟨"id", "text"⟩], [["p1"]]⟩,
     by decide, rfl, rfl, rfl, by decide, by decide⟩

/-- Claim C10: `close` is safe in every connection state — a `None` field
is passed over without any operation and without error (`close` is a
total function), closing only what was assigned — and `main` releases
exactly the connections established by `connect` on *every* exit path
(`p` ranges over validation failure, empty selection, interrupt,
unhandled error, cancelled confirmation and normal completion; the
`finally` clause runs the same `close` in each case, and a `connect`
failure exits with the unassigned fields still `None`). -/
theorem C10_close_every_path :
    close ⟨none, none⟩ = [] ∧
    (∀ (od : Option Nat), close ⟨none, od⟩ =
      (match od with
       | some c => [CloseOp.closeDest c]
       | none => [])) ∧
    (∀ (os : Option Nat), close ⟨os, none⟩ =
      (match os with
       | some c => [CloseOp.closeSource c]
       | none => [])) ∧
    (∀ (srcOk destOk : Bool) (sid did : Nat) (p : ExitPath),
      mainCloses srcOk destOk sid did p =
        if srcOk then
          (if destOk then [CloseOp.closeSource sid, CloseOp.closeDest did]
           else [CloseOp.closeSource sid])
        else []) := by
  refine ⟨rfl, ?_, ?_, ?_⟩
  · intro od
    cases od <;> rfl
  · intro os
    cases os <;> rfl
  · intro srcOk destOk sid did p
    cases srcOk <;> cases destOk <;> rfl

end SupabaseCli
